import Mathlib

/-!
Verification of the spec-view core: a shallow embedding of the document
validator, endpoint extractor, error classifier, schema-graph builder and
graph expansion state machine, translated from
`src/components/ui/link-button.tsx` (the hooks `useSpecParser`,
`useGraphVisualization` and their helper functions) and
`src/pages/viewer.tsx` (`generateNodeId`, `extractSchemaNodes`).

JavaScript dynamic values are modelled by the inductive type `JS`
(with a separate `undefined` constructor, since lodash `get` and JS property
access distinguish `undefined` from `null`).  Fallible JS code (property
access on `null`, calling `.map`/`.includes` on a non-function) is modelled
with `Except String`.  Node coordinates are real numbers, since the layout
uses `Math.cos`/`Math.sin`; all identity-level reasoning stays decidable.
-/

deriving instance DecidableEq for Except

namespace SpecView

/-! ## Character-list string utilities

All scanning is done on `List Char` with structural (or fuel-bounded)
recursion so that every definition evaluates inside the kernel. -/

/-- Does the pattern occur as a contiguous substring?  Mirrors JS
`String.prototype.includes`. -/
def listContainsSub (pat : List Char) : List Char → Bool
  | [] => pat.isEmpty
  | c :: t => pat.isPrefixOf (c :: t) || listContainsSub pat t

/-- JS `s.includes(pat)`. -/
def strContains (s pat : String) : Bool :=
  listContainsSub pat.data s.data

/-- JS `s.startsWith(p)`. -/
def strStartsWith (p s : String) : Bool :=
  p.data.isPrefixOf s.data

/-- Replace the first occurrence of a (non-empty) pattern, as JS
`String.prototype.replace` does with a plain-string argument. -/
def listReplaceFirst (pat rep : List Char) : List Char → List Char
  | [] => []
  | c :: t =>
    if pat.isPrefixOf (c :: t) then rep ++ (c :: t).drop pat.length
    else c :: listReplaceFirst pat rep t

/-- JS `s.replace(pat, rep)` for a plain-string pattern (first occurrence
only). -/
def strReplaceFirst (s pat rep : String) : String :=
  ⟨listReplaceFirst pat.data rep.data s.data⟩

/-- Replace every occurrence of a single character, as the regexes
`/\//g` and `/[{}]/g` in `methodDataMapper` do. -/
def strMapChars (f : Char → Char) (s : String) : String :=
  ⟨s.data.map f⟩

/-- JS `s.toLowerCase()` (ASCII). -/
def strLower (s : String) : String :=
  ⟨s.data.map Char.toLower⟩

/-- JS `s.toUpperCase()` (ASCII). -/
def strUpper (s : String) : String :=
  ⟨s.data.map Char.toUpper⟩

/-- JS whitespace for `trim`. -/
def isJsSpace (c : Char) : Bool :=
  c = ' ' || c = '\t' || c = '\n' || c = '\r'

/-- JS `s.trim()`. -/
def strTrim (s : String) : String :=
  ⟨(s.data.dropWhile isJsSpace).reverse.dropWhile isJsSpace |>.reverse⟩

/-- JS `s.split(sep)` for a non-empty plain-string separator. -/
def listSplitOnSub (sep : List Char) : ℕ → List Char → List (List Char)
  | _, [] => [[]]
  | 0, l => [l]
  | fuel + 1, c :: t =>
    if sep.isPrefixOf (c :: t) then
      [] :: listSplitOnSub sep fuel ((c :: t).drop sep.length)
    else
      match listSplitOnSub sep fuel t with
      | [] => [[c]]
      | h :: r => (c :: h) :: r

/-- JS `s.split(sep)` (non-empty separator). -/
def strSplit (s sep : String) : List String :=
  (listSplitOnSub sep.data s.data.length s.data).map (fun l => ⟨l⟩)

/-- JS `s.substring(0, n)`. -/
def strTake (s : String) (n : ℕ) : String :=
  ⟨s.data.take n⟩

/-! ## JS dynamic values -/

mutual
/-- A JavaScript runtime value.  `undefined` is kept distinct from `null`
because property lookup yields `undefined` for a missing key while lodash
`get` substitutes its default only for `undefined`, and `typeof null`
is `"object"`.  Numbers are rationals (`NaN`/`Infinity` never arise in the
embedded code paths).  Array elements and object fields are their own
mutual inductives (instead of nested `List`s) so that every recursion over
values is structural and kernel-reducible. -/
inductive JS where
  | undefined : JS
  | null : JS
  | bool : Bool → JS
  | num : ℚ → JS
  | str : String → JS
  | arr : JSList → JS
  | obj : JSFields → JS
  deriving DecidableEq
inductive JSList where
  | nil : JSList
  | cons : JS → JSList → JSList
  deriving DecidableEq
inductive JSFields where
  | nil : JSFields
  | cons : String → JS → JSFields → JSFields
  deriving DecidableEq
end

/-- The element list of a `JS.arr`. -/
def JSList.toList : JSList → List JS
  | .nil => []
  | .cons x xs => x :: xs.toList

/-- The field list of a `JS.obj`, in insertion order. -/
def JSFields.toList : JSFields → List (String × JS)
  | .nil => []
  | .cons k v fs => (k, v) :: fs.toList

/-- Build a `JSList` from a list literal. -/
def JSList.ofList : List JS → JSList
  | [] => .nil
  | x :: xs => .cons x (ofList xs)

/-- Build `JSFields` from a list literal. -/
def JSFields.ofList : List (String × JS) → JSFields
  | [] => .nil
  | (k, v) :: fs => .cons k v (ofList fs)

mutual
/-- Structural size of a JS value; used as the recursion-depth fuel of the
schema-graph builder. -/
def jsSize : JS → ℕ
  | .undefined => 1
  | .null => 1
  | .bool _ => 1
  | .num _ => 1
  | .str _ => 1
  | .arr xs => 1 + jsSizeList xs
  | .obj fs => 1 + jsSizeFields fs
/-- Structural size of array elements. -/
def jsSizeList : JSList → ℕ
  | .nil => 0
  | .cons x xs => jsSize x + jsSizeList xs
/-- Structural size of object fields. -/
def jsSizeFields : JSFields → ℕ
  | .nil => 0
  | .cons _ v fs => jsSize v + jsSizeFields fs
end

namespace JS

/-- Array literal. -/
def jarr (xs : List JS) : JS := .arr (JSList.ofList xs)

/-- Object literal. -/
def jobj (fs : List (String × JS)) : JS := .obj (JSFields.ofList fs)

/-- JS truthiness: `undefined`, `null`, `false`, `0` and `""` are falsy. -/
def truthy : JS → Bool
  | undefined => false
  | null => false
  | bool b => b
  | num q => q ≠ 0
  | str s => s ≠ ""
  | arr _ => true
  | obj _ => true

/-- `typeof v === "object"` (true for `null`, arrays and objects). -/
def typeofObject : JS → Bool
  | null => true
  | arr _ => true
  | obj _ => true
  | _ => false

/-- `typeof v === "string"`. -/
def typeofString : JS → Bool
  | str _ => true
  | _ => false

/-- Canonical non-negative integer index notation: a non-empty digit
string without leading zeros (except `"0"` itself). -/
def parseIndex (k : String) : Option ℕ :=
  match k.data with
  | [] => none
  | c :: t =>
    if (c :: t).all Char.isDigit ∧ (c = '0' → t = []) then
      some ((c :: t).foldl (fun n c => 10 * n + (c.toNat - 48)) 0)
    else none

/-- Property read `v[k]` on a non-nullish base: objects by key, arrays
and strings by canonical index, anything else `undefined`.  (`length` and
prototype members are never read by the embedded code.) -/
def member : JS → String → JS
  | obj fs, k => (fs.toList.lookup k).getD undefined
  | arr xs, k =>
    match parseIndex k with
    | some i => (xs.toList.get? i).getD undefined
    | none => undefined
  | str s, k =>
    match parseIndex k with
    | some i => ((s.data.get? i).map (fun c => str ⟨[c]⟩)).getD undefined
    | none => undefined
  | _, _ => undefined

/-- Property read `v[k]`, throwing (as JS does) when the base is
`null`/`undefined`. -/
def memberE : JS → String → Except String JS
  | undefined, _ => .error "Cannot read properties of undefined"
  | null, _ => .error "Cannot read properties of null"
  | v, k => .ok (member v k)

/-- `Object.keys` (after ES2015 `ToObject` coercion): insertion-order keys
for objects, index strings for arrays and strings, `[]` for other
primitives; throws on `null`/`undefined`. -/
def keysE : JS → Except String (List String)
  | undefined => .error "Cannot convert undefined or null to object"
  | null => .error "Cannot convert undefined or null to object"
  | obj fs => .ok (fs.toList.map Prod.fst)
  | arr xs => .ok ((List.range xs.toList.length).map toString)
  | str s => .ok ((List.range s.length).map toString)
  | _ => .ok []

/-- `Object.values`, same coercion rules as `keysE`. -/
def valuesE : JS → Except String (List JS)
  | undefined => .error "Cannot convert undefined or null to object"
  | null => .error "Cannot convert undefined or null to object"
  | obj fs => .ok (fs.toList.map Prod.snd)
  | arr xs => .ok xs.toList
  | str s => .ok (s.data.map (fun c => str ⟨[c]⟩))
  | _ => .ok []

/-- `Object.entries`, same coercion rules as `keysE`. -/
def entriesE : JS → Except String (List (String × JS))
  | undefined => .error "Cannot convert undefined or null to object"
  | null => .error "Cannot convert undefined or null to object"
  | obj fs => .ok fs.toList
  | arr xs => .ok (xs.toList.enum.map (fun p => (toString p.1, p.2)))
  | str s => .ok (s.data.enum.map (fun p => (toString p.1, str ⟨[p.2]⟩)))
  | _ => .ok []

/-- Total variant of `Object.entries` used only in claim-side counting
definitions (`[]` for `null`/`undefined`, which can never be reached on a
successful run). -/
def entriesD : JS → List (String × JS)
  | obj fs => fs.toList
  | arr xs => xs.toList.enum.map (fun p => (toString p.1, p.2))
  | str s => s.data.enum.map (fun p => (toString p.1, str ⟨[p.2]⟩))
  | _ => []

/-- JS `a || b`. -/
def jsOr (a b : JS) : JS := if a.truthy then a else b

/-- lodash `get(o, path, default)`: the dotted path is split on `.`, the
chain is followed with nullish-safe reads, and the default replaces only a
final `undefined`. -/
def lodashGet (o : JS) (path : String) (dflt : JS) : JS :=
  let res := (strSplit path ".").foldl
    (fun acc k =>
      match acc with
      | undefined => undefined
      | null => undefined
      | v => v.member k) o
  match res with
  | undefined => dflt
  | r => r

/-- Total variant of `Object.keys`, used where the base is already known
to be non-nullish. -/
def keysD : JS → List String
  | obj fs => fs.toList.map Prod.fst
  | arr xs => (List.range xs.toList.length).map toString
  | str s => (List.range s.length).map toString
  | _ => []

end JS

/-! ## lodash-style helpers used by the hooks -/

/-- JS template-literal stringification, restricted to the value shapes the
embedded code interpolates (number rendering is simplified to the integer
case; `NaN`/exponent formats never arise here). -/
def jsToStr : JS → String
  | .str s => s
  | .num q => if q.den = 1 then toString q.num else toString q
  | .bool b => cond b "true" "false"
  | .null => "null"
  | .undefined => "undefined"
  | .arr _ => ""
  | .obj _ => "[object Object]"

/-- Word splitting for `kebabCase` (ASCII): digit runs, lowercase runs, and
uppercase runs where a trailing capital starts the next word
(`HTMLParser` → `HTML`, `Parser`); non-alphanumerics separate words. -/
def splitWordsAux : ℕ → List Char → List (List Char)
  | 0, _ => []
  | _ + 1, [] => []
  | fuel + 1, c :: t =>
    if c.isDigit then
      ((c :: t).takeWhile Char.isDigit) :: splitWordsAux fuel ((c :: t).dropWhile Char.isDigit)
    else if c.isLower then
      ((c :: t).takeWhile (fun d => d.isLower && d.isAlpha)) ::
        splitWordsAux fuel ((c :: t).dropWhile (fun d => d.isLower && d.isAlpha))
    else if c.isUpper then
      let us := (c :: t).takeWhile Char.isUpper
      let r := (c :: t).dropWhile Char.isUpper
      match r with
      | d :: _ =>
        if d.isLower then
          if us.length = 1 then
            (us ++ r.takeWhile (fun e => e.isLower && e.isAlpha)) ::
              splitWordsAux fuel (r.dropWhile (fun e => e.isLower && e.isAlpha))
          else
            us.dropLast :: splitWordsAux fuel (us.getLast?.toList ++ r)
        else us :: splitWordsAux fuel r
      | [] => [us]
    else splitWordsAux fuel t

/-- lodash `kebabCase` (ASCII fragment): split into words, lowercase,
join with `-`. -/
def kebabCase (s : String) : String :=
  String.intercalate "-"
    ((splitWordsAux (s.data.length + 1) s.data).map (fun w => String.mk (w.map Char.toLower)))

/-! ## Endpoint extraction (`useSpecParser` and helpers) -/

/-- `contentResolver` from the hooks file: first media-type key plus a
lodash lookup of `<type>.schema`. -/
def contentResolver (contentObj : JS) : JS :=
  if !contentObj.truthy || !contentObj.typeofObject then
    .jobj [("type", .str ""), ("schema", .null)]
  else
    let type := (JS.keysD contentObj).headD ""
    let schema := JS.lodashGet contentObj (type ++ ".schema") .null
    .jobj [("type", .str type), ("schema", schema)]

/-- `resolveResponseContent`: `undefined` for falsy input, the input itself
if it already looks processed (truthy `type` or `schema` member), otherwise
`contentResolver`. -/
def resolveResponseContent (content : JS) : Option JS :=
  if !content.truthy then none
  else if (content.member "type").truthy || (content.member "schema").truthy then some content
  else some (contentResolver content)

/-- One entry of `Endpoint.responses`. -/
structure RespEntry where
  statusCode : String
  description : JS
  content : Option JS
  deriving DecidableEq

/-- One entry of `Endpoint.parameters`. -/
structure Param where
  name : JS
  paramIn : JS
  description : JS
  required : JS
  type : JS
  format : JS
  deriving DecidableEq

/-- A normalized endpoint record as produced by `methodDataMapper`. -/
structure Endpoint where
  id : String
  method : String
  path : String
  summary : JS
  description : JS
  tags : JS
  parameters : List Param
  requestBody : JS
  responses : List RespEntry
  deriving DecidableEq

/-- The per-parameter mapping inside `methodDataMapper`; property access on
a nullish array element throws. -/
def paramMapper (p : JS) : Except String Param :=
  match p with
  | .null => .error "Cannot read properties of null"
  | .undefined => .error "Cannot read properties of undefined"
  | _ => .ok
    { name := JS.jsOr (p.member "name") (.str "")
      paramIn := JS.jsOr (p.member "in") (.str "")
      description := JS.jsOr (p.member "description") (.str "")
      required := JS.jsOr (p.member "required") (.bool false)
      type := JS.lodashGet p "schema.type" (JS.lodashGet p "type" (.str "string"))
      format := JS.lodashGet p "schema.format" (JS.lodashGet p "format" .undefined) }

/-- The response-entry mapping inside `methodDataMapper`: string-valued
entries become the description directly with no content; object-valued
entries read `description` and resolve `content` (defaulted to `{}`). -/
def mapResponseEntry (statusCode : String) (responseObj : JS) : RespEntry :=
  match responseObj with
  | .str s => ⟨statusCode, .str s, none⟩
  | v =>
    ⟨statusCode, JS.lodashGet v "description" (.str ""),
      resolveResponseContent (JS.lodashGet v "content" (.jobj []))⟩

/-- The synthesized endpoint id
`method.toLowerCase() + "-" + path.replace(/\//g,"-").replace(/[{}]/g,"_")`. -/
def synthesizedId (method path : String) : String :=
  strLower method ++ "-" ++
    strMapChars (fun c => if c = '\x7b' || c = '\x7d' then '_' else c)
      (strMapChars (fun c => if c = '/' then '-' else c) path)

/-- `methodDataMapper`: builds one `Endpoint` from a path, a lowercase
method name and the operation object.  Throws (as the JS does) when
`parameters` is a truthy non-array, a parameter element is nullish, or
`responses` is `null`. -/
def methodDataMapper (path method : String) (methodObj : JS) : Except String Endpoint := do
  let summary := JS.lodashGet methodObj "summary" (.str "")
  let description := JS.lodashGet methodObj "description" (.str "")
  let opId := JS.lodashGet methodObj "operationId" (.str "")
  let tags := JS.lodashGet methodObj "tags" (.jarr [])
  let parametersArr := JS.lodashGet methodObj "parameters" (.jarr [])
  let parameters ← match parametersArr with
    | .arr xs => xs.toList.mapM paramMapper
    | _ => .error "parametersArr.map is not a function"
  let requestBody := JS.lodashGet methodObj "requestBody" .undefined
  let responsesObj := JS.lodashGet methodObj "responses" (.jobj [])
  let entries ← JS.entriesE responsesObj
  let responses := entries.map (fun p => mapResponseEntry p.1 p.2)
  .ok
    { id := if opId.truthy then kebabCase (jsToStr opId) else synthesizedId method path
      method := strUpper method
      path := path
      summary := summary
      description := description
      tags := tags
      parameters := parameters
      requestBody := requestBody
      responses := responses }

/-! ## Structural validator (`validateSpecFormat`) -/

/-- Diagnostic severity. -/
inductive Severity where
  | error : Severity
  | warning : Severity
  deriving DecidableEq, Repr

/-- A `ValidationError` record. -/
structure Diagnostic where
  path : Option String
  message : String
  severity : Severity
  deriving DecidableEq, Repr

/-- `['3.0.0','3.0.1','3.0.2','3.0.3','3.1.0'].includes(version)` with JS
strict equality (only a string can match). -/
def versionSupported : JS → Bool
  | .str s => ["3.0.0", "3.0.1", "3.0.2", "3.0.3", "3.1.0"].contains s
  | _ => false

/-- JS `v !== s` for a string literal `s`. -/
def jsNeqStr (v : JS) (s : String) : Bool :=
  match v with
  | .str t => t ≠ s
  | _ => true

/-- The recognized HTTP method keys of the validator's operation check. -/
def validatorMethods : List String :=
  ["get", "post", "put", "delete", "patch", "options", "head"]

/-- `Object.values(spec.paths).some(pathObj => Object.keys(pathObj).some(...))`:
short-circuiting, and throwing when it reaches a nullish path value. -/
def anyPathHasOps : List JS → Except String Bool
  | [] => .ok false
  | p :: rest => do
    let ks ← JS.keysE p
    if ks.any (fun k => validatorMethods.contains (strLower k)) then .ok true
    else anyPathHasOps rest

/-- Total variant of `Object.values` for claim-side statements. -/
def valuesD : JS → List JS
  | .obj fs => fs.toList.map Prod.snd
  | .arr xs => xs.toList
  | .str s => s.data.map (fun c => .str ⟨[c]⟩)
  | _ => []

/-- The version-identifier rule group of `validateSpecFormat` (the first
`if`/`else` of the source, lines 199-218). -/
def versionRuleDiags (spec : JS) : List Diagnostic :=
  if !(spec.member "openapi").truthy && !(spec.member "swagger").truthy then
    [⟨none, "Invalid API spec format: Missing OpenAPI/Swagger version identifier", .error⟩]
  else
    let version := JS.jsOr (spec.member "openapi") (spec.member "swagger")
    if (spec.member "openapi").truthy && !versionSupported version then
      [⟨none, "OpenAPI version " ++ jsToStr version ++
        " may not be fully supported. Recommended versions: 3.0.x or 3.1.0", .warning⟩]
    else if (spec.member "swagger").truthy && jsNeqStr version "2.0" then
      [⟨none, "Swagger version " ++ jsToStr version ++
        " may not be fully supported. Recommended version: 2.0", .warning⟩]
    else []

/-- The `info` rule group of `validateSpecFormat` (lines 220-241). -/
def infoRuleDiags (spec : JS) : List Diagnostic :=
  if !(spec.member "info").truthy then
    [⟨none, "Missing required \"info\" object in specification", .error⟩]
  else
    (if !((spec.member "info").member "title").truthy then
      [⟨some "info.title", "API specification is missing required title", .error⟩]
    else []) ++
    (if !((spec.member "info").member "version").truthy then
      [⟨some "info.version", "API specification is missing version information", .error⟩]
    else [])

/-- The `paths` rule group of `validateSpecFormat` (lines 243-263); an
`Except` because the operation check may throw on a nullish path value. -/
def pathsRuleDiags (spec : JS) : Except String (List Diagnostic) :=
  let paths := spec.member "paths"
  if !paths.truthy || JS.keysD paths = [] then
    .ok [⟨none, "API specification contains no endpoints (empty paths object)", .warning⟩]
  else do
    let hasOperations ← anyPathHasOps (valuesD paths)
    .ok
      (if !hasOperations then
        [⟨some "paths", "API specification contains paths but no HTTP operations (GET, POST, etc.)",
          .warning⟩]
      else [])

/-- `validateSpecFormat`: the fixed structural rule set, in source push
order (version rules, info rules, paths rules).  The result is an
`Except` because the operation check calls `Object.keys` on each value of
`paths`, which throws on a nullish value. -/
def validateSpecFormat (spec : JS) : Except String (List Diagnostic) :=
  if !spec.truthy then
    .ok [⟨none, "Specification is empty or undefined", .error⟩]
  else do
    let tail ← pathsRuleDiags spec
    .ok (versionRuleDiags spec ++ infoRuleDiags spec ++ tail)

/-! ## Endpoint extraction loop (`useSpecParser`, lines 413-457) -/

/-- The method keys the extractor visits (no `head`, unlike the
validator). -/
def httpMethods : List String :=
  ["get", "post", "put", "delete", "patch", "options"]

/-- The catch block's message selection: refine the generic message when
the thrown message mentions `parameters`, `responses` or `requestBody`. -/
def extractionWarningMessage (path m msg : String) : String :=
  let base := "Error processing endpoint " ++ strUpper m ++ " " ++ path
  if msg ≠ "" then
    if strContains msg "parameters" then "Invalid parameters in " ++ strUpper m ++ " " ++ path
    else if strContains msg "responses" then "Invalid responses in " ++ strUpper m ++ " " ++ path
    else if strContains msg "requestBody" then "Invalid request body in " ++ strUpper m ++ " " ++ path
    else base
  else base

/-- Inner loop: visit the method keys of one path object in order; a mapper
failure is caught and turned into a warning diagnostic, and iteration
continues.  The presence test `pathObj[method]` itself throws when
`pathObj` is nullish. -/
def processMethods (path : String) (pathObj : JS) :
    List String → Except String (List Endpoint × List Diagnostic)
  | [] => .ok ([], [])
  | m :: ms => do
    let v ← pathObj.memberE m
    if v.truthy then
      match methodDataMapper path m v with
      | .ok ep => do
        let (es, ds) ← processMethods path pathObj ms
        .ok (ep :: es, ds)
      | .error msg => do
        let (es, ds) ← processMethods path pathObj ms
        .ok (es, ⟨some ("paths." ++ path ++ "." ++ m),
          extractionWarningMessage path m msg, .warning⟩ :: ds)
    else processMethods path pathObj ms

/-- Outer loop over `Object.entries(paths)`. -/
def processPaths : List (String × JS) → Except String (List Endpoint × List Diagnostic)
  | [] => .ok ([], [])
  | (path, pathObj) :: rest => do
    let (es₁, ds₁) ← processMethods path pathObj httpMethods
    let (es₂, ds₂) ← processPaths rest
    .ok (es₁ ++ es₂, ds₁ ++ ds₂)

/-- The endpoint-extraction region of `useSpecParser`: walk the resolved
document's `paths` and collect endpoints plus per-operation warning
diagnostics. -/
def extractEndpoints (api : JS) : Except String (List Endpoint × List Diagnostic) := do
  let paths := JS.lodashGet api "paths" (.jobj [])
  let entries ← JS.entriesE paths
  processPaths entries

/-- Claim-side: the operations present (truthy method values) across all
paths, in traversal order. -/
def presentOps (api : JS) : List (String × String × JS) :=
  (JS.entriesD (JS.lodashGet api "paths" (.jobj []))).flatMap
    (fun e => httpMethods.filterMap
      (fun m => if (e.2.member m).truthy then some (e.1, m, e.2.member m) else none))

/-- Claim-side: the count of recognized HTTP-method keys across all
paths. -/
def countMethodKeys (api : JS) : ℕ :=
  (presentOps api).length

/-! ## Error classifier and redaction (`useSpecParser`, `catch` blocks) -/

/-- The classifier's small taxonomy. -/
inductive ErrorCategory where
  | schemaError : ErrorCategory
  | referenceError : ErrorCategory
  | typeError : ErrorCategory
  | missingRequiredProperty : ErrorCategory
  | generic : ErrorCategory
  deriving DecidableEq, Repr

/-- The category assigned by the `swaggerError` catch block's `if`/`else if`
chain; each test is a plain substring check on the raw message. -/
def classifyResolverError (msg : String) : ErrorCategory :=
  if strContains msg "schema" then .schemaError
  else if strContains msg "reference" then .referenceError
  else if strContains msg "is not of a type" then .typeError
  else if strContains msg "required property" then .missingRequiredProperty
  else .generic

/-- First replace of the sanitizer: every occurrence of the regex
`\x7b[^\x7b\x7d]*\x7d` (an opening brace, a run of non-brace characters, a
closing brace) becomes the placeholder `\x7b...\x7d`.  Fuel-bounded
left-to-right scan; fuel `length` suffices since every step consumes at
least one character. -/
def stripBracesAux : ℕ → List Char → List Char
  | 0, l => l
  | _ + 1, [] => []
  | fuel + 1, c :: t =>
    if c = '\x7b' then
      let run := t.takeWhile (fun d => d ≠ '\x7b' && d ≠ '\x7d')
      let rest := t.drop run.length
      match rest with
      | '\x7d' :: r => '\x7b' :: '.' :: '.' :: '.' :: '\x7d' :: stripBracesAux fuel r
      | _ => c :: (run ++ stripBracesAux fuel rest)
    else c :: stripBracesAux fuel t

/-- Second replace of the sanitizer: every occurrence of the regex
`with value "[^"]\x7b50,\x7d"` becomes `with long value "[...]"`. -/
def stripLongValuesAux : ℕ → List Char → List Char
  | 0, l => l
  | _ + 1, [] => []
  | fuel + 1, c :: t =>
    if ("with value \"".data).isPrefixOf (c :: t) then
      let rest := (c :: t).drop 12
      let run := rest.takeWhile (fun d => d ≠ '"')
      let rest2 := rest.drop run.length
      if 50 ≤ run.length then
        match rest2 with
        | '"' :: r => "with long value \"[...]\"".data ++ stripLongValuesAux fuel r
        | _ => c :: stripLongValuesAux fuel t
      else c :: stripLongValuesAux fuel t
    else c :: stripLongValuesAux fuel t

/-- The message sanitizer of the `swaggerError` catch block: strip
brace-delimited object literals, then long quoted values. -/
def sanitizeResolverMessage (msg : String) : String :=
  let l₁ := stripBracesAux msg.data.length msg.data
  ⟨stripLongValuesAux l₁.length l₁⟩

/-- The fixed prefix of the generic fallback error. -/
def genericErrorIntro : String :=
  "Failed to parse specification: "

/-- The user-facing error string set by the final `else` branch of the
classifier (the generic fallback): fixed prefix plus the first 200
characters of the sanitized message. -/
def genericResolverError (msg : String) : String :=
  genericErrorIntro ++ strTake (sanitizeResolverMessage msg) 200

/-- Claim-side: first-match-wins classification over an ordered rule
table. -/
def firstMatchCategory : List (String × ErrorCategory) → String → ErrorCategory
  | [], _ => .generic
  | (pat, cat) :: rest, msg =>
    if strContains msg pat then cat else firstMatchCategory rest msg

/-- The rule order stated by the claim: reference, type, required
property, schema. -/
def claimedRuleOrder : List (String × ErrorCategory) :=
  [("reference", .referenceError), ("is not of a type", .typeError),
   ("required property", .missingRequiredProperty), ("schema", .schemaError)]

/-- The rule order actually implemented: schema first. -/
def sourceRuleOrder : List (String × ErrorCategory) :=
  [("schema", .schemaError), ("reference", .referenceError),
   ("is not of a type", .typeError), ("required property", .missingRequiredProperty)]

/-- Claim-side redaction checker: does the string contain a substring
matching `\x7b[^\x7b\x7d]*\x7d` whose interior is longer than the three
dots of the `\x7b...\x7d` placeholder? -/
def hasLongBraceRunAux : ℕ → List Char → Bool
  | 0, _ => false
  | _ + 1, [] => false
  | fuel + 1, c :: t =>
    if c = '\x7b' then
      let run := t.takeWhile (fun d => d ≠ '\x7b' && d ≠ '\x7d')
      match t.drop run.length with
      | '\x7d' :: _ => if 3 < run.length then true else hasLongBraceRunAux fuel t
      | _ => hasLongBraceRunAux fuel t
    else hasLongBraceRunAux fuel t

/-- Claim-side: the string contains a brace-delimited run longer than the
`\x7b...\x7d` placeholder. -/
def hasLongBraceRun (s : String) : Bool :=
  hasLongBraceRunAux (s.data.length + 1) s.data

/-! ## Graph visualization (`useGraphVisualization`) -/

/-- The node kinds of the visualization hook. -/
inductive GNodeType where
  | api : GNodeType
  | endpoint : GNodeType
  | response : GNodeType
  deriving DecidableEq, Repr

/-- The `data` payload of a graph node, by node kind. -/
inductive GNodeData where
  | api (label version : String) : GNodeData
  | endpoint (label method : String) (summary description : JS)
      (responses : List RespEntry) : GNodeData
  | response (statusCode : String) (description : JS) (content : Option JS) : GNodeData

/-- A visualization node.  Coordinates are reals because the layout uses
`Math.cos`/`Math.sin`; a node created without an `expanded` field
(`undefined`, falsy) is modelled with `expanded := false`. -/
structure GNode where
  id : String
  type : GNodeType
  x : ℝ
  y : ℝ
  data : GNodeData
  expanded : Bool

/-- A visualization edge. -/
structure GEdge where
  id : String
  source : String
  target : String
  type : String
  deriving DecidableEq, Repr

/-- The hook's live node/edge collections. -/
structure GraphState where
  nodes : List GNode
  edges : List GEdge

/-- `endpointNode.data.responses || []`: only endpoint data carries a
`responses` field, so the `||` default fires for the other kinds. -/
def dataResponses : GNodeData → List RespEntry
  | .endpoint _ _ _ _ rs => rs
  | _ => []

noncomputable section

/-- `Math.PI * (3 - Math.sqrt(5))`. -/
def goldenAngle : ℝ := Real.pi * (3 - Real.sqrt 5)

/-- `calculatePosition` from the hook: golden-angle spiral with radius
jitter, around `x = 400`, `y = 300`.  The `total` argument is unused in the
source as well. -/
def calculatePosition (index : ℕ) (total : ℕ) : ℝ × ℝ :=
  let angle : ℝ := index * goldenAngle
  let radius : ℝ := 250 + (index % 3 : ℕ) * 50
  (400 + radius * Real.cos angle, 300 + radius * Real.sin angle)

/-- The endpoint node built for sibling index `index`. -/
def mkEndpointNode (total : ℕ) (index : ℕ) (ep : Endpoint) : GNode :=
  let pos := calculatePosition index total
  ⟨"endpoint-" ++ ep.id, .endpoint, pos.1, pos.2,
    .endpoint ep.path ep.method ep.summary ep.description ep.responses, false⟩

/-- The graph built by the hook's effect: an `api-root` node at
`(400,100)`, one endpoint node per endpoint on the spiral, and one bezier
edge from the root to each endpoint; empty input yields an empty graph. -/
def buildGraph (endpoints : List Endpoint) (apiName apiVersion : String) : GraphState :=
  if endpoints.isEmpty then ⟨[], []⟩
  else
    { nodes := ⟨"api-root", .api, 400, 100, .api apiName apiVersion, false⟩ ::
        endpoints.enum.map (fun p => mkEndpointNode endpoints.length p.1 p.2)
      edges := endpoints.map (fun ep =>
        ⟨"edge-root-" ++ ep.id, "api-root", "endpoint-" ++ ep.id, "bezier"⟩) }

/-- The flip applied by the first `setNodes` of `toggleNodeExpansion`. -/
def flipIfId (nodeId : String) (n : GNode) : GNode :=
  if n.id == nodeId then { n with expanded := !n.expanded } else n

/-- The response node for child index `index` under the toggled node. -/
def mkResponseNode (node : GNode) (endpointId : String) (index : ℕ) (r : RespEntry) : GNode :=
  ⟨"response-" ++ endpointId ++ "-" ++ r.statusCode, .response,
    node.x, node.y + 120 + (index : ℝ) * 80,
    .response r.statusCode r.description r.content, false⟩

/-- The structural edge from the toggled node to one response node. -/
def mkResponseEdge (nodeId : String) (endpointId : String) (r : RespEntry) : GEdge :=
  ⟨"edge-" ++ nodeId ++ "-" ++ ("response-" ++ endpointId ++ "-" ++ r.statusCode),
    nodeId, "response-" ++ endpointId ++ "-" ++ r.statusCode, "straight"⟩

/-- `toggleNodeExpansion`: flip the node's `expanded` flag; when expanding,
append one response node and one straight edge per response; when
collapsing, drop every node whose id starts with `response-<endpointId>`
and every edge whose id starts with `edge-<nodeId>`.  The two `setNodes`
calls are functional updates applied in sequence. -/
def toggleNodeExpansion (st : GraphState) (nodeId : String) : GraphState :=
  match st.nodes.find? (fun n => n.id == nodeId) with
  | none => st
  | some node =>
    if node.type ≠ .endpoint then st
    else
      let nodes₁ := st.nodes.map (flipIfId nodeId)
      if !node.expanded then
        let endpointId := strReplaceFirst nodeId "endpoint-" ""
        match st.nodes.find? (fun n => n.id == nodeId) with
        | none => ⟨nodes₁, st.edges⟩
        | some endpointNode =>
          let responses := dataResponses endpointNode.data
          ⟨nodes₁ ++ responses.enum.map (fun p => mkResponseNode node endpointId p.1 p.2),
            st.edges ++ responses.map (mkResponseEdge nodeId endpointId)⟩
      else
        let endpointId := strReplaceFirst nodeId "endpoint-" ""
        ⟨nodes₁.filter (fun n => !strStartsWith ("response-" ++ endpointId) n.id),
          st.edges.filter (fun e => !strStartsWith ("edge-" ++ nodeId) e.id)⟩

end

/-! ## Schema-graph builder (`viewer.tsx`) -/

/-- The viewer's node kinds. -/
inductive VType where
  | endpoint : VType
  | request : VType
  | response : VType
  | schema : VType
  | property : VType
  | array : VType
  deriving DecidableEq, Repr

/-- The metadata payload attached to schema and property nodes. -/
structure VData where
  description : JS
  required : Bool
  format : JS
  exampleVal : JS
  deriving DecidableEq

/-- A viewer graph node; reference nodes are pushed without a `data`
field. -/
structure VNode where
  id : String
  text : String
  type : VType
  data : Option VData
  deriving DecidableEq

/-- A viewer graph edge; only array edges carry a `text` label. -/
structure VEdge where
  id : String
  fromId : String
  toId : String
  text : Option String
  deriving DecidableEq, Repr

/-- The character class `[\s./\x7b\x7d:]` of `generateNodeId`. -/
def isIdSeparator (c : Char) : Bool :=
  isJsSpace c || c = '.' || c = '/' || c = '\x7b' || c = '\x7d' || c = ':'

/-- `key.replace(/[\s./\x7b\x7d:]+/g, "_")`: each maximal run of separator
characters collapses to one underscore. -/
def collapseSeparatorRuns : ℕ → List Char → List Char
  | 0, l => l
  | _ + 1, [] => []
  | fuel + 1, c :: t =>
    if isIdSeparator c then '_' :: collapseSeparatorRuns fuel ((c :: t).dropWhile isIdSeparator)
    else c :: collapseSeparatorRuns fuel t

/-- `generateNodeId` from the viewer.  The `Math.random` suffix used for an
empty or blank key is modelled as a fixed token: the source accepts
non-determinism only in that degenerate case and no claim depends on the
suffix value. -/
def generateNodeId (parentId key : String) : String :=
  let safeParent := if parentId ≠ "" && strTrim parentId ≠ "" then parentId else "root"
  if key = "" || strTrim key = "" then
    safeParent ++ "-unknown-" ++ "r4nd0m"
  else
    safeParent ++ "-" ++ ⟨collapseSeparatorRuns key.data.length key.data⟩

/-- JS `v === s` for a string literal. -/
def jsIsStr (v : JS) (s : String) : Bool :=
  match v with
  | .str t => t = s
  | _ => false

/-- `requiredProps.includes(propName)`: array membership by strict
equality, substring test on a string, and a thrown `TypeError` on any other
truthy receiver (numbers, booleans, plain objects have no `includes`). -/
def includesE (v : JS) (probe : String) : Except String Bool :=
  match v with
  | .arr xs => .ok (xs.toList.any (fun x => jsIsStr x probe))
  | .str s => .ok (strContains s probe)
  | _ => .error "requiredProps.includes is not a function"

/-- `ref.split("/").pop()`, throwing when the `$ref` value is a truthy
non-string. -/
def refLastSegmentE (v : JS) : Except String String :=
  match v with
  | .str s => .ok ((strSplit s "/").getLastD "")
  | _ => .error "split is not a function"

/-- `extractSchemaNodes`, fuel-bounded on nesting depth (the wrapper
passes `sizeOf schema`, which dominates the recursion depth).  Returns the
nodes and edges appended by the call, in push order, or the thrown
`TypeError` message. -/
def extractSchemaNodesAux : ℕ → JS → String → String → VType →
    Except String (List VNode × List VEdge)
  | 0, _, _, _, _ => .ok ([], [])
  | fuel + 1, schema, parentId, nodeName, nodeType =>
    if !schema.truthy || !schema.typeofObject then .ok ([], [])
    else do
      let nodeId := generateNodeId parentId nodeName
      let schemaData : VData :=
        ⟨schema.member "description",
          (match schema.member "required" with | .bool true => true | _ => false),
          schema.member "format", schema.member "example"⟩
      let headNode : VNode := ⟨nodeId, nodeName, nodeType, some schemaData⟩
      let headEdge : VEdge := ⟨parentId ++ "-to-" ++ nodeId, parentId, nodeId,
        if nodeType = .array then some "items" else none⟩
      if jsIsStr (schema.member "type") "object" && (schema.member "properties").truthy then
        let requiredProps := JS.jsOr (schema.member "required") (.jarr [])
        let step := fun (acc : List VNode × List VEdge) (p : String × JS) => do
          let propName := p.1
          let propSchema := p.2
          let propNodeId := generateNodeId nodeId propName
          let isRequired ← includesE requiredProps propName
          let propType ← match propSchema with
            | .null => Except.error "Cannot read properties of null"
            | .undefined => Except.error "Cannot read properties of undefined"
            | v => Except.ok (JS.jsOr (v.member "type") (.str "object"))
          let displayName := propName ++ (if isRequired then "*" else "") ++ ": " ++
            jsToStr propType
          let propNode : VNode := ⟨propNodeId, displayName, .property,
            some ⟨propSchema.member "description", isRequired,
              propSchema.member "format", propSchema.member "example"⟩⟩
          let propEdge : VEdge := ⟨nodeId ++ "-to-" ++ propNodeId, nodeId, propNodeId, none⟩
          let nested ←
            if jsIsStr (propSchema.member "type") "object" &&
                (propSchema.member "properties").truthy then
              extractSchemaNodesAux fuel propSchema propNodeId "Object" .schema
            else if jsIsStr (propSchema.member "type") "array" &&
                (propSchema.member "items").truthy then
              extractSchemaNodesAux fuel (propSchema.member "items") propNodeId
                "Array Items" .array
            else if (propSchema.member "$ref").truthy then do
              let seg ← refLastSegmentE (propSchema.member "$ref")
              .ok ([⟨propNodeId ++ "-ref", "Ref: " ++ seg, .schema, none⟩],
                [⟨propNodeId ++ "-to-ref", propNodeId, propNodeId ++ "-ref", none⟩])
            else .ok ([], [])
          .ok (acc.1 ++ propNode :: nested.1, acc.2 ++ propEdge :: nested.2)
        let folded ← (JS.entriesD (schema.member "properties")).foldlM step ([], [])
        .ok (headNode :: folded.1, headEdge :: folded.2)
      else if jsIsStr (schema.member "type") "array" && (schema.member "items").truthy then do
        let nested ← extractSchemaNodesAux fuel (schema.member "items") nodeId
          "Array Items" .array
        .ok (headNode :: nested.1, headEdge :: nested.2)
      else if (schema.member "$ref").truthy then do
        let seg ← refLastSegmentE (schema.member "$ref")
        .ok ([headNode, ⟨nodeId ++ "-ref", "Ref: " ++ seg, .schema, none⟩],
          [headEdge, ⟨nodeId ++ "-to-ref", nodeId, nodeId ++ "-ref", none⟩])
      else .ok ([headNode], [headEdge])

/-- `extractSchemaNodes` with the depth bound instantiated. -/
def extractSchemaNodes (schema : JS) (parentId : String)
    (nodeName : String := "Schema") (nodeType : VType := .schema) :
    Except String (List VNode × List VEdge) :=
  extractSchemaNodesAux (jsSize schema) schema parentId nodeName nodeType

/-! ## Shared helper lemmas -/

theorem strStartsWith_self (p : String) : strStartsWith p p = true := by
  simp [strStartsWith]

theorem strStartsWith_append (p r : String) : strStartsWith p (p ++ r) = true := by
  simp [strStartsWith]

theorem strStartsWith_append_of {p q : String} (r : String)
    (h : strStartsWith p q = true) : strStartsWith p (q ++ r) = true := by
  simp only [strStartsWith, String.data_append, List.isPrefixOf_iff_prefix] at h ⊢
  exact h.trans (List.prefix_append q.data r.data)

theorem strStartsWith_append_false {p q : String} (r : String)
    (hlen : p.data.length ≤ q.data.length)
    (h : strStartsWith p q = false) : strStartsWith p (q ++ r) = false := by
  simp only [strStartsWith, String.data_append, Bool.eq_false_iff, ne_eq,
    List.isPrefixOf_iff_prefix] at h ⊢
  intro hp
  apply h
  have htake := List.prefix_iff_eq_take.mp hp
  rw [List.take_append_eq_append_take, Nat.sub_eq_zero_of_le hlen,
    List.take_zero, List.append_nil] at htake
  exact htake ▸ List.take_prefix _ _

theorem flipIfId_id (nodeId : String) (n : GNode) : (flipIfId nodeId n).id = n.id := by
  unfold flipIfId
  split <;> rfl

theorem flipIfId_flipIfId (nodeId : String) (n : GNode) :
    flipIfId nodeId (flipIfId nodeId n) = n := by
  unfold flipIfId
  by_cases h : (n.id == nodeId) = true <;> simp [h]

theorem flipIfId_of_ne {nodeId : String} {n : GNode} (h : (n.id == nodeId) = false) :
    flipIfId nodeId n = n := by
  unfold flipIfId
  simp [h]

theorem find?_map_flipIfId (l : List GNode) (nodeId : String) :
    (l.map (flipIfId nodeId)).find? (fun n => n.id == nodeId) =
      (l.find? (fun n => n.id == nodeId)).map (flipIfId nodeId) := by
  induction l with
  | nil => rfl
  | cons x t ih =>
    simp only [List.map_cons, List.find?_cons, flipIfId_id]
    by_cases h : (x.id == nodeId) = true <;> simp [h, ih]

theorem map_flipIfId_flipIfId (l : List GNode) (nodeId : String) :
    (l.map (flipIfId nodeId)).map (flipIfId nodeId) = l := by
  induction l with
  | nil => rfl
  | cons x t ih => simp [flipIfId_flipIfId, ih]

theorem mem_map_id_iff {A B : List GNode} (h : ∀ n, n ∈ A ↔ n ∈ B) (s : String) :
    s ∈ A.map GNode.id ↔ s ∈ B.map GNode.id := by
  simp only [List.mem_map]
  exact ⟨fun ⟨n, hn, he⟩ => ⟨n, (h n).1 hn, he⟩, fun ⟨n, hn, he⟩ => ⟨n, (h n).2 hn, he⟩⟩

/-- Unfolding of `toggleNodeExpansion` in the expanding direction. -/
theorem toggle_expand_eq (st : GraphState) (nodeId : String) (node : GNode)
    (hfind : st.nodes.find? (fun n => n.id == nodeId) = some node)
    (hty : node.type = .endpoint) (hexp : node.expanded = false) :
    toggleNodeExpansion st nodeId =
      ⟨st.nodes.map (flipIfId nodeId) ++
        (dataResponses node.data).enum.map
          (fun p => mkResponseNode node (strReplaceFirst nodeId "endpoint-" "") p.1 p.2),
        st.edges ++ (dataResponses node.data).map
          (mkResponseEdge nodeId (strReplaceFirst nodeId "endpoint-" ""))⟩ := by
  unfold toggleNodeExpansion
  rw [hfind]
  simp [hty, hexp, flipIfId]

/-- Unfolding of `toggleNodeExpansion` in the collapsing direction. -/
theorem toggle_collapse_eq (st : GraphState) (nodeId : String) (node : GNode)
    (hfind : st.nodes.find? (fun n => n.id == nodeId) = some node)
    (hty : node.type = .endpoint) (hexp : node.expanded = true) :
    toggleNodeExpansion st nodeId =
      ⟨(st.nodes.map (flipIfId nodeId)).filter
          (fun n => !strStartsWith ("response-" ++ strReplaceFirst nodeId "endpoint-" "") n.id),
        st.edges.filter (fun e => !strStartsWith ("edge-" ++ nodeId) e.id)⟩ := by
  unfold toggleNodeExpansion
  rw [hfind]
  simp [hty, hexp, flipIfId]

/-- A found node satisfies the search predicate. -/
theorem find?_id_eq {l : List GNode} {nodeId : String} {node : GNode}
    (hfind : l.find? (fun n => n.id == nodeId) = some node) : (node.id == nodeId) = true := by
  simpa using List.find?_some hfind

/-- Expand-then-collapse restores the state exactly, provided no
pre-existing node id carries the response prefix of the toggled endpoint
and no pre-existing edge id carries its edge prefix. -/
theorem toggle_roundtrip (st : GraphState) (nodeId : String) (node : GNode)
    (hfind : st.nodes.find? (fun n => n.id == nodeId) = some node)
    (hty : node.type = .endpoint) (hexp : node.expanded = false)
    (hfresh : ∀ n ∈ st.nodes,
      strStartsWith ("response-" ++ strReplaceFirst nodeId "endpoint-" "") n.id = false)
    (hedge : ∀ e ∈ st.edges, strStartsWith ("edge-" ++ nodeId) e.id = false) :
    toggleNodeExpansion (toggleNodeExpansion st nodeId) nodeId = st := by
  set eid := strReplaceFirst nodeId "endpoint-" "" with heid
  set rs := dataResponses node.data with hrs
  rw [toggle_expand_eq st nodeId node hfind hty hexp]
  set st₁ : GraphState :=
    ⟨st.nodes.map (flipIfId nodeId) ++
      rs.enum.map (fun p => mkResponseNode node eid p.1 p.2),
      st.edges ++ rs.map (mkResponseEdge nodeId eid)⟩ with hst₁
  have hfind₁ : st₁.nodes.find? (fun n => n.id == nodeId) = some (flipIfId nodeId node) := by
    rw [hst₁]
    simp only [List.find?_append, find?_map_flipIfId, hfind, Option.map_some]
    rfl
  have hty₁ : (flipIfId nodeId node).type = .endpoint := by
    unfold flipIfId
    split <;> exact hty
  have hexp₁ : (flipIfId nodeId node).expanded = true := by
    unfold flipIfId
    rw [if_pos (find?_id_eq hfind)]
    simp [hexp]
  rw [toggle_collapse_eq st₁ nodeId (flipIfId nodeId node) hfind₁ hty₁ hexp₁]
  have hnodes : (st₁.nodes.map (flipIfId nodeId)).filter
      (fun n => !strStartsWith ("response-" ++ eid) n.id) = st.nodes := by
    rw [hst₁]
    simp only [List.map_append, map_flipIfId_flipIfId, List.filter_append]
    have h₁ : st.nodes.filter (fun n => !strStartsWith ("response-" ++ eid) n.id) = st.nodes :=
      List.filter_eq_self.mpr (fun n hn => by simp [hfresh n hn])
    have h₂ : ((rs.enum.map (fun p => mkResponseNode node eid p.1 p.2)).map
        (flipIfId nodeId)).filter (fun n => !strStartsWith ("response-" ++ eid) n.id) = [] := by
      apply List.filter_eq_nil_iff.mpr
      intro a ha
      simp only [List.mem_map] at ha
      obtain ⟨b, ⟨p, hp, rfl⟩, rfl⟩ := ha
      have : strStartsWith ("response-" ++ eid)
          ("response-" ++ eid ++ "-" ++ p.2.statusCode) = true :=
        strStartsWith_append_of _ (strStartsWith_append_of _ (strStartsWith_self _))
      simp [flipIfId_id, mkResponseNode, this]
    rw [h₁, h₂, List.append_nil]
  have hedges : st₁.edges.filter (fun e => !strStartsWith ("edge-" ++ nodeId) e.id) = st.edges := by
    rw [hst₁]
    simp only [List.filter_append]
    have h₁ : st.edges.filter (fun e => !strStartsWith ("edge-" ++ nodeId) e.id) = st.edges :=
      List.filter_eq_self.mpr (fun e he => by simp [hedge e he])
    have h₂ : ((rs.map (mkResponseEdge nodeId eid)).filter
        (fun e => !strStartsWith ("edge-" ++ nodeId) e.id)) = [] := by
      apply List.filter_eq_nil_iff.mpr
      intro a ha
      simp only [List.mem_map] at ha
      obtain ⟨r, hr, rfl⟩ := ha
      simp only [mkResponseEdge]
      have : strStartsWith ("edge-" ++ nodeId)
          ("edge-" ++ nodeId ++ "-" ++ ("response-" ++ eid ++ "-" ++ r.statusCode)) = true :=
        strStartsWith_append_of _ (strStartsWith_append_of _ (strStartsWith_self _))
      simp [this]
    rw [h₁, h₂, List.append_nil]
  rw [hnodes, hedges]

end SpecView

namespace SpecView

/-! ## Claim C1 -/

/-- Claim C1 (corrected): toggle idempotence holds with a freshness
proviso.  For a collapsed endpoint node found by id, toggling twice
(expand then collapse) leaves the node and edge collections set-equal to
their pre-toggle values, PROVIDED no pre-existing node id starts with the
toggled endpoint's `response-<endpointId>` prefix and no pre-existing edge
id starts with its `edge-<nodeId>` prefix.  Without the proviso the claim
fails (see the counterexample): collapse removes by string prefix, so an
expanded endpoint whose id extends the toggled endpoint's id loses its
response subtree. -/
theorem claim_C1_toggle_idempotent (st : GraphState) (nodeId : String) (node : GNode)
    (hfind : st.nodes.find? (fun n => n.id == nodeId) = some node)
    (hty : node.type = .endpoint) (hexp : node.expanded = false)
    (hfresh : ∀ n ∈ st.nodes,
      strStartsWith ("response-" ++ strReplaceFirst nodeId "endpoint-" "") n.id = false)
    (hedge : ∀ e ∈ st.edges, strStartsWith ("edge-" ++ nodeId) e.id = false) :
    (∀ n, n ∈ (toggleNodeExpansion (toggleNodeExpansion st nodeId) nodeId).nodes ↔
      n ∈ st.nodes) ∧
    (∀ e, e ∈ (toggleNodeExpansion (toggleNodeExpansion st nodeId) nodeId).edges ↔
      e ∈ st.edges) := by
  rw [toggle_roundtrip st nodeId node hfind hty hexp hfresh hedge]
  exact ⟨fun _ => Iff.rfl, fun _ => Iff.rfl⟩

/-- A one-endpoint graph state used to instantiate claim C1. -/
noncomputable def c1Node : GNode :=
  ⟨"endpoint-e", .endpoint, 0, 0,
    .endpoint "/e" "GET" .undefined .undefined [⟨"200", .str "ok", none⟩], false⟩

/-- The witness state for claim C1. -/
noncomputable def c1State : GraphState := ⟨[c1Node], []⟩

/-- Witness for claim C1: the idempotence theorem applied to a concrete
one-endpoint state. -/
theorem claim_C1_witness :
    (∀ n, n ∈ (toggleNodeExpansion (toggleNodeExpansion c1State "endpoint-e")
        "endpoint-e").nodes ↔ n ∈ c1State.nodes) ∧
    (∀ e, e ∈ (toggleNodeExpansion (toggleNodeExpansion c1State "endpoint-e")
        "endpoint-e").edges ↔ e ∈ c1State.edges) :=
  claim_C1_toggle_idempotent c1State "endpoint-e" c1Node (by rfl) (by rfl) (by rfl)
    (by decide) (by decide)

/-- Endpoint `a`, whose id is a string prefix of endpoint `a-b`'s id. -/
def c1CexEndpointA : Endpoint :=
  ⟨"a", "GET", "/a", .undefined, .undefined, .jarr [], [], .undefined, [⟨"200", .str "ok", none⟩]⟩

/-- Endpoint `a-b` (for instance from `operationId: "aB"`). -/
def c1CexEndpointAB : Endpoint :=
  ⟨"a-b", "GET", "/ab", .undefined, .undefined, .jarr [], [], .undefined, [⟨"200", .str "ok", none⟩]⟩

/-- Graph built by the hook from the two endpoints, with `endpoint-a-b`
expanded — a reachable pre-toggle state. -/
noncomputable def c1CexStart : GraphState :=
  toggleNodeExpansion (buildGraph [c1CexEndpointA, c1CexEndpointAB] "api" "1.0")
    "endpoint-a-b"

/-- The state after toggling `endpoint-a` twice (expand then collapse). -/
noncomputable def c1CexFinal : GraphState :=
  toggleNodeExpansion (toggleNodeExpansion c1CexStart "endpoint-a") "endpoint-a"

/-- Counterexample for claim C1 as stated: in a graph produced by
`useGraphVisualization` from endpoints with ids `a` and `a-b`, where
`endpoint-a-b` is already expanded, toggling `endpoint-a` twice does NOT
leave the collections set-equal: the collapse filter removes the node
`response-a-b-200` of the other endpoint, because its id starts with
`response-a`. -/
theorem claim_C1_counterexample :
    ¬ ((∀ n, n ∈ c1CexFinal.nodes ↔ n ∈ c1CexStart.nodes) ∧
       (∀ e, e ∈ c1CexFinal.edges ↔ e ∈ c1CexStart.edges)) := by
  rintro ⟨hn, -⟩
  exact absurd ((mem_map_id_iff hn "response-a-b-200").2 (by decide)) (by decide)

/-! ## Claim C8 -/

/-- Claim C8 (corrected): the toggle frame property with a freshness
proviso.  Expanding a collapsed endpoint with `n` responses appends
exactly the `n` response nodes and the `n` straight edges, leaves every
other node (with its position) in the collection and every pre-existing
edge untouched; collapsing again removes exactly those `2n` entities and
restores the state — PROVIDED no pre-existing node or edge id carries the
removal prefixes.  When another expanded endpoint's id shares the toggled
endpoint's id as a string prefix the no-others part fails (see the
counterexample). -/
theorem claim_C8_toggle_frame (st : GraphState) (nodeId : String) (node : GNode)
    (hfind : st.nodes.find? (fun n => n.id == nodeId) = some node)
    (hty : node.type = .endpoint) (hexp : node.expanded = false)
    (hfresh : ∀ n ∈ st.nodes,
      strStartsWith ("response-" ++ strReplaceFirst nodeId "endpoint-" "") n.id = false)
    (hedge : ∀ e ∈ st.edges, strStartsWith ("edge-" ++ nodeId) e.id = false) :
    (toggleNodeExpansion st nodeId).nodes.length =
      st.nodes.length + (dataResponses node.data).length ∧
    (toggleNodeExpansion st nodeId).edges.length =
      st.edges.length + (dataResponses node.data).length ∧
    (toggleNodeExpansion st nodeId).nodes.drop st.nodes.length =
      (dataResponses node.data).enum.map
        (fun p => mkResponseNode node (strReplaceFirst nodeId "endpoint-" "") p.1 p.2) ∧
    (toggleNodeExpansion st nodeId).edges =
      st.edges ++ (dataResponses node.data).map
        (mkResponseEdge nodeId (strReplaceFirst nodeId "endpoint-" "")) ∧
    (∀ m ∈ st.nodes, (m.id == nodeId) = false → m ∈ (toggleNodeExpansion st nodeId).nodes) ∧
    toggleNodeExpansion (toggleNodeExpansion st nodeId) nodeId = st := by
  have hexpand := toggle_expand_eq st nodeId node hfind hty hexp
  refine ⟨?_, ?_, ?_, ?_, ?_, toggle_roundtrip st nodeId node hfind hty hexp hfresh hedge⟩
  · rw [hexpand]
    simp
  · rw [hexpand]
    simp
  · rw [hexpand]
    have hlen : (st.nodes.map (flipIfId nodeId)).length = st.nodes.length := by simp
    simp only []
    rw [← hlen, List.drop_left]
  · rw [hexpand]
  · intro m hm hne
    rw [hexpand]
    exact List.mem_append_left _
      (List.mem_map.mpr ⟨m, hm, flipIfId_of_ne hne⟩)

/-- A concrete two-response endpoint state used to instantiate claim C8. -/
noncomputable def c8Node : GNode :=
  ⟨"endpoint-f", .endpoint, 10, 20,
    .endpoint "/f" "POST" .undefined .undefined
      [⟨"200", .str "ok", none⟩, ⟨"404", .str "gone", none⟩], false⟩

/-- The witness state for claim C8. -/
noncomputable def c8State : GraphState :=
  ⟨[c8Node], [⟨"edge-root-f", "api-root", "endpoint-f", "bezier"⟩]⟩

/-- Witness for claim C8: the frame theorem applied to a concrete state
with two responses; in particular the node count grows by exactly 2 and
collapse restores the state. -/
theorem claim_C8_witness :
    (toggleNodeExpansion c8State "endpoint-f").nodes.length =
      c8State.nodes.length + (dataResponses c8Node.data).length ∧
    (toggleNodeExpansion c8State "endpoint-f").edges.length =
      c8State.edges.length + (dataResponses c8Node.data).length ∧
    (toggleNodeExpansion c8State "endpoint-f").nodes.drop c8State.nodes.length =
      (dataResponses c8Node.data).enum.map
        (fun p => mkResponseNode c8Node (strReplaceFirst "endpoint-f" "endpoint-" "") p.1 p.2) ∧
    (toggleNodeExpansion c8State "endpoint-f").edges =
      c8State.edges ++ (dataResponses c8Node.data).map
        (mkResponseEdge "endpoint-f" (strReplaceFirst "endpoint-f" "endpoint-" "")) ∧
    (∀ m ∈ c8State.nodes, (m.id == "endpoint-f") = false →
      m ∈ (toggleNodeExpansion c8State "endpoint-f").nodes) ∧
    toggleNodeExpansion (toggleNodeExpansion c8State "endpoint-f") "endpoint-f" = c8State :=
  claim_C8_toggle_frame c8State "endpoint-f" c8Node (by rfl) (by rfl) (by rfl)
    (by decide) (by decide)

/-- Endpoint `b`, whose id is a string prefix of endpoint `b-c`'s id. -/
def c8CexEndpointB : Endpoint :=
  ⟨"b", "GET", "/b", .undefined, .undefined, .jarr [], [], .undefined, [⟨"200", .str "ok", none⟩]⟩

/-- Endpoint `b-c`. -/
def c8CexEndpointBC : Endpoint :=
  ⟨"b-c", "GET", "/bc", .undefined, .undefined, .jarr [], [], .undefined, [⟨"200", .str "ok", none⟩]⟩

/-- Graph with both endpoints expanded (`endpoint-b-c` first, then
`endpoint-b`). -/
noncomputable def c8CexBoth : GraphState :=
  toggleNodeExpansion
    (toggleNodeExpansion (buildGraph [c8CexEndpointB, c8CexEndpointBC] "api" "1.0")
      "endpoint-b-c")
    "endpoint-b"

/-- The state after collapsing `endpoint-b`. -/
noncomputable def c8CexCollapsed : GraphState :=
  toggleNodeExpansion c8CexBoth "endpoint-b"

/-- Counterexample for claim C8 as stated: collapsing `endpoint-b` (whose
single expansion added only `response-b-200`) also removes
`response-b-c-200`, a response node of the concurrently expanded endpoint
`b-c` — so collapse does not remove "exactly those 2n entities and no
others". -/
theorem claim_C8_counterexample :
    "response-b-c-200" ∈ c8CexBoth.nodes.map GNode.id ∧
    "response-b-c-200" ∉ c8CexCollapsed.nodes.map GNode.id ∧
    "response-b-c-200" ≠ "response-b-200" := by
  refine ⟨by decide, by decide, by decide⟩

end SpecView

namespace SpecView

/-! ## Claim C3 -/

/-- Claim C3 (corrected): classification is first-match-wins over plain
substring tests, but in the source the order is schema, reference,
type, required-property, generic — `schema` is tested FIRST, not
`reference`.  In particular any message containing `schema` is classified
as a schema error, regardless of whether it also contains `reference`. -/
theorem claim_C3_classifier_order (msg : String) :
    classifyResolverError msg = firstMatchCategory sourceRuleOrder msg ∧
    (strContains msg "schema" = true → classifyResolverError msg = .schemaError) := by
  constructor
  · rfl
  · intro h
    simp [classifyResolverError, h]

/-- Witness for claim C3: the message `schema reference` contains
`schema`, so the theorem classifies it as a schema error. -/
theorem claim_C3_witness : classifyResolverError "schema reference" = .schemaError :=
  (claim_C3_classifier_order "schema reference").2 (by decide)

/-- Counterexample for claim C3 as stated: on the message
`schema reference`, which contains both `schema` and `reference`, the code
returns a schema error while the claimed rule order (reference first)
returns a reference error. -/
theorem claim_C3_counterexample :
    classifyResolverError "schema reference" = .schemaError ∧
    firstMatchCategory claimedRuleOrder "schema reference" = .referenceError ∧
    ErrorCategory.schemaError ≠ ErrorCategory.referenceError := by
  decide

/-! ## Claim C10 -/

/-- Claim C10 (confirmed): for every falsy input (undefined, null, empty
string, zero, false) the validator returns exactly the single
severity-error diagnostic `Specification is empty or undefined` and no
other rule fires. -/
theorem claim_C10_falsy_short_circuit (spec : JS) (h : spec.truthy = false) :
    validateSpecFormat spec =
      .ok [⟨none, "Specification is empty or undefined", .error⟩] := by
  unfold validateSpecFormat
  simp [h]

/-- Witness for claim C10 at the concrete input `null`. -/
theorem claim_C10_witness :
    JS.truthy .null = false ∧
    validateSpecFormat .null =
      .ok [⟨none, "Specification is empty or undefined", .error⟩] :=
  ⟨by decide, claim_C10_falsy_short_circuit .null (by decide)⟩

/-! ## Claim C7 -/

/-- Claim C7 (corrected): the generic fallback message is the fixed
prefix `Failed to parse specification: ` followed by at most 200
characters of the sanitized message, so its length is bounded by the
prefix length plus 200.  The redaction half of the original claim is
false (see the counterexample): pattern-extraction branches echo raw
fragments, and even the sanitizer itself can re-expose a brace-delimited
run when the long-quoted-value replacement deletes the inner braces. -/
theorem claim_C7_generic_bounded (msg : String) :
    strStartsWith genericErrorIntro (genericResolverError msg) = true ∧
    (genericResolverError msg).length ≤ genericErrorIntro.length + 200 := by
  constructor
  · exact strStartsWith_append _ _
  · unfold genericResolverError strTake
    rw [String.length_append]
    have : (String.mk ((sanitizeResolverMessage msg).data.take 200)).length ≤ 200 := by
      show ((sanitizeResolverMessage msg).data.take 200).length ≤ 200
      rw [List.length_take]
      exact min_le_left _ _
    omega

/-- The counterexample message: an object literal whose only brace-free
brace pair is the placeholder itself, wrapped around a 55-character quoted
value. -/
def c7Message : String :=
  "\x7bwith value \"AAAAAAAAAAAAAAAAAAAAAAAAA\x7b...\x7dAAAAAAAAAAAAAAAAAAAAAAAAA\"\x7d"

/-- Counterexample for claim C7 as stated: this message reaches the
generic fallback (it matches none of the four patterns), yet the produced
user-facing string contains the substring
`\x7bwith long value "[...]"\x7d` — a brace-delimited run of 23 characters,
far longer than the `\x7b...\x7d` placeholder: the second replace deletes
the inner braces of the quoted value and re-joins the outer ones. -/
theorem claim_C7_counterexample :
    classifyResolverError c7Message = .generic ∧
    hasLongBraceRun (genericResolverError c7Message) = true := by
  decide

/-! ## Claim C6 -/

/-- A schema with a non-array `required` field and a non-empty
`properties` object: `requiredProps.includes` is called on the number `5`
and throws a `TypeError`. -/
def c6FailingSchema : JS :=
  .jobj [("type", .str "object"),
    ("properties", .jobj [("id", .jobj [("type", .str "integer")])]),
    ("required", .num 5)]

/-- Claim C6 (code bug): the builder is NOT total.  On the failing input
(`required: 5` with a non-empty `properties`) `extractSchemaNodes` throws
(`requiredProps.includes is not a function`), contradicting the spec's
"must never throw on arbitrary untrusted schema shapes".  The second half
of the claim does hold: non-object and undefined fragments are silently
skipped with no nodes and no edges. -/
theorem claim_C6_builder_throws :
    (extractSchemaNodes c6FailingSchema "root").isOk = false ∧
    extractSchemaNodes (.num 5) "root" = .ok ([], []) ∧
    extractSchemaNodes .null "root" = .ok ([], []) ∧
    extractSchemaNodes .undefined "root" = .ok ([], []) := by
  decide

end SpecView

namespace SpecView

/-! ## Claim C2 -/

/-- Bind on `Except` with an `ok` scrutinee. -/
@[simp] theorem exceptBind_ok {α β ε : Type} (a : α) (f : α → Except ε β) :
    (Except.ok a >>= f : Except ε β) = f a := rfl

/-- Bind on `Except` with an `error` scrutinee. -/
@[simp] theorem exceptBind_error {α β ε : Type} (e : ε) (f : α → Except ε β) :
    (Except.error e >>= f : Except ε β) = .error e := rfl

/-- A successful `Object.entries` equals the total entries function. -/
theorem entriesE_ok {v : JS} {l : List (String × JS)} (h : JS.entriesE v = .ok l) :
    l = JS.entriesD v := by
  cases v <;> simp [JS.entriesE, JS.entriesD] at h ⊢ <;> first | exact h | exact h.symm

end SpecView

namespace SpecView

/-- Claim C2 (corrected): for every operation, `Endpoint.responses` is the
entry-wise image of the operation's `responses` map.  A string-valued
entry becomes `(statusCode, the string, no content)`.  An object-valued
entry with no (or undefined) `content` field gets
`content = \x7btype: "", schema: null\x7d` — NOT `undefined`, because the
defaulted `\x7b\x7d` is truthy and falls through to `contentResolver`.  An
object-valued entry whose content map is a truthy object that does not
already look processed has its content resolved by `contentResolver`,
whose `type` is the first media-type key and whose `schema` is the lodash
lookup `<type>.schema`. -/
theorem claim_C2_response_extraction (path method : String) (methodObj : JS) (ep : Endpoint)
    (hok : methodDataMapper path method methodObj = .ok ep) :
    ep.responses = (JS.entriesD (JS.lodashGet methodObj "responses" (.jobj []))).map
      (fun p => mapResponseEntry p.1 p.2) ∧
    (∀ sc s, mapResponseEntry sc (.str s) = ⟨sc, .str s, none⟩) ∧
    (∀ sc v, v.typeofString = false →
      JS.lodashGet v "content" (.jobj []) = .jobj [] →
      mapResponseEntry sc v =
        ⟨sc, JS.lodashGet v "description" (.str ""),
          some (.jobj [("type", .str ""), ("schema", .null)])⟩) ∧
    (∀ cf, cf.truthy = true → cf.typeofObject = true →
      (cf.member "type").truthy = false → (cf.member "schema").truthy = false →
      resolveResponseContent cf = some (contentResolver cf) ∧
      (contentResolver cf).member "type" = .str ((JS.keysD cf).headD "") ∧
      (contentResolver cf).member "schema" =
        JS.lodashGet cf (((JS.keysD cf).headD "") ++ ".schema") .null) := by
  refine ⟨?_, fun sc s => rfl, ?_, ?_⟩
  · unfold methodDataMapper at hok
    rcases hp : JS.lodashGet methodObj "parameters" (.jarr [])
      with _ | _ | b | q | s | xs | fs <;> rw [hp] at hok <;>
      try (simp at hok; done)
    simp only [] at hok
    rcases hm : List.mapM paramMapper xs.toList with e | ps <;> rw [hm] at hok
    · exact absurd hok (by simp)
    rcases he : JS.entriesE (JS.lodashGet methodObj "responses" (.jobj []))
      with e | l <;> rw [he] at hok
    · exact absurd hok (by simp)
    simp only [exceptBind_ok, Except.ok.injEq] at hok
    rw [← hok]
    rw [entriesE_ok he]
  · intro sc v hstr hcontent
    rcases v with _ | _ | b | q | s | xs | fs
    case str => simp [JS.typeofString] at hstr
    all_goals (simp only [mapResponseEntry]; rw [hcontent]; rfl)
  · intro cf h1 h2 h3 h4
    refine ⟨?_, ?_, ?_⟩
    · simp [resolveResponseContent, h1, h3, h4]
    · simp [contentResolver, h1, h2, JS.jobj, JSFields.ofList, JS.member,
        JSFields.toList, List.lookup]
    · simp [contentResolver, h1, h2, JS.jobj, JSFields.ofList, JS.member,
        JSFields.toList, List.lookup]

end SpecView

namespace SpecView

/-- The operation object of the claim's scenario:
`\x7b"responses": \x7b"200": \x7b"description": "ok"\x7d\x7d\x7d`. -/
def c2MethodObj : JS :=
  .jobj [("responses", .jobj [("200", .jobj [("description", .str "ok")])])]

/-- Counterexample for claim C2 as stated: the scenario response entry
does NOT get `content: undefined`; the defaulted `\x7b\x7d` is truthy, so
the entry's content is `\x7btype: "", schema: null\x7d`. -/
theorem claim_C2_counterexample :
    ¬ ((methodDataMapper "/pets" "get" c2MethodObj).map (fun e => e.responses) =
        .ok [⟨"200", .str "ok", none⟩]) ∧
    (methodDataMapper "/pets" "get" c2MethodObj).map (fun e => e.responses) =
      .ok [⟨"200", .str "ok", some (.jobj [("type", .str ""), ("schema", .null)])⟩] := by
  exact ⟨by decide, by decide⟩

/-- The endpoint extracted from the scenario operation. -/
def c2Endpoint : Endpoint :=
  ((methodDataMapper "/pets" "get" c2MethodObj).toOption).getD
    ⟨"", "", "", .undefined, .undefined, .undefined, [], .undefined, []⟩

/-- Witness for claim C2: the response-extraction theorem applied to the
scenario operation. -/
theorem claim_C2_witness :
    c2Endpoint.responses =
      (JS.entriesD (JS.lodashGet c2MethodObj "responses" (.jobj []))).map
        (fun p => mapResponseEntry p.1 p.2) :=
  (claim_C2_response_extraction "/pets" "get" c2MethodObj c2Endpoint (by rfl)).1

end SpecView

namespace SpecView

/-! ## Claim C9 -/

/-- The position the claim asserts for endpoint sibling `i`: on the spiral
around the ROOT origin `(400, 100)`. -/
noncomputable def claimedEndpointPosition (i : ℕ) : ℝ × ℝ :=
  (400 + (250 + (i % 3 : ℕ) * 50) * Real.cos (i * goldenAngle),
   100 + (250 + (i % 3 : ℕ) * 50) * Real.sin (i * goldenAngle))

/-- Claim C9 (corrected): the root `api` node is fixed at `(400, 100)`;
the endpoint sibling with index `i` sits at angle `i × π×(3−√5)` and
radius `250 + (i mod 3) × 50` on a spiral centered at `(400, 300)` — the
x-coordinate of the root but NOT the root origin itself (the claim's
`(400,100)` center is wrong, see the counterexample); each response child
`j` of an expanded endpoint is stacked at the parent's x and at the
parent's y plus `120 + j × 80`. -/
theorem claim_C9_layout_positions (endpoints : List Endpoint) (apiName apiVersion : String)
    (i : ℕ) (st : GraphState) (nodeId : String) (node : GNode) (j : ℕ) :
    (endpoints ≠ [] →
      (buildGraph endpoints apiName apiVersion).nodes.head? =
        some ⟨"api-root", .api, 400, 100, .api apiName apiVersion, false⟩) ∧
    (∀ hi : i < endpoints.length,
      ((buildGraph endpoints apiName apiVersion).nodes.get? (i + 1)).map
        (fun nd => (nd.id, nd.x, nd.y)) =
        some ("endpoint-" ++ (endpoints.get ⟨i, hi⟩).id,
          400 + (250 + (i % 3 : ℕ) * 50) * Real.cos (i * goldenAngle),
          300 + (250 + (i % 3 : ℕ) * 50) * Real.sin (i * goldenAngle))) ∧
    (st.nodes.find? (fun n => n.id == nodeId) = some node → node.type = .endpoint →
      node.expanded = false → ∀ hj : j < (dataResponses node.data).length,
      ((toggleNodeExpansion st nodeId).nodes.get? (st.nodes.length + j)).map
        (fun nd => (nd.id, nd.x, nd.y)) =
        some ("response-" ++ strReplaceFirst nodeId "endpoint-" "" ++ "-" ++
            ((dataResponses node.data).get ⟨j, hj⟩).statusCode,
          node.x, node.y + 120 + (j : ℝ) * 80)) := by
  refine ⟨?_, ?_, ?_⟩
  · intro h
    unfold buildGraph
    rw [if_neg (by simpa using h)]
    rfl
  · intro hi
    have hne : endpoints ≠ [] := List.ne_nil_of_length_pos (Nat.lt_of_le_of_lt (Nat.zero_le i) hi)
    unfold buildGraph
    rw [if_neg (by simpa using hne)]
    show ((endpoints.enum.map (fun p => mkEndpointNode endpoints.length p.1 p.2)).get? i).map
      (fun nd => (nd.id, nd.x, nd.y)) = _
    rw [List.get?_eq_getElem?, List.getElem?_map, List.getElem?_enum,
      List.getElem?_eq_getElem hi]
    simp [mkEndpointNode, calculatePosition, List.get_eq_getElem]
  · intro hfind hty hexp hj
    rw [toggle_expand_eq st nodeId node hfind hty hexp]
    show ((st.nodes.map (flipIfId nodeId) ++ _).get? (st.nodes.length + j)).map _ = _
    rw [List.get?_eq_getElem?,
      List.getElem?_append_right (by simp : (st.nodes.map (flipIfId nodeId)).length ≤ st.nodes.length + j)]
    simp only [List.length_map, Nat.add_sub_cancel_left]
    rw [List.getElem?_map, List.getElem?_enum, List.getElem?_eq_getElem hj]
    simp [mkResponseNode, List.get_eq_getElem]

end SpecView

namespace SpecView

/-- A minimal endpoint for the layout claim instances. -/
def c9Endpoint : Endpoint :=
  ⟨"e0", "GET", "/e", .undefined, .undefined, .jarr [], [], .undefined, []⟩

/-- Counterexample for claim C9 as stated: the first endpoint sibling
(index 0, angle 0) is placed by the code at `y = 300` (spiral center
`(400, 300)`), while the claim's formula — radius from the origin
`(400, 100)` — predicts `y = 100`. -/
theorem claim_C9_counterexample :
    ((buildGraph [c9Endpoint] "api" "1.0").nodes.get? 1).map GNode.y ≠
      some (claimedEndpointPosition 0).2 := by
  have hcode : ((buildGraph [c9Endpoint] "api" "1.0").nodes.get? 1).map GNode.y =
      some (300 + (250 + ((0 : ℕ) % 3 : ℕ) * 50) * Real.sin ((0 : ℕ) * goldenAngle)) := rfl
  rw [hcode]
  simp only [claimedEndpointPosition, Nat.cast_zero, zero_mul, Real.sin_zero, mul_zero,
    add_zero, Nat.zero_mod, Nat.cast_ofNat, ne_eq, Option.some.injEq]
  norm_num

/-- Witness for claim C9: the layout theorem instantiated at the
one-endpoint graph, sibling index 0. -/
theorem claim_C9_witness :
    ((buildGraph [c9Endpoint] "api" "1.0").nodes.get? 1).map
      (fun nd => (nd.id, nd.x, nd.y)) =
      some ("endpoint-" ++ ([c9Endpoint].get ⟨0, by decide⟩).id,
        400 + (250 + ((0 : ℕ) % 3 : ℕ) * 50) * Real.cos ((0 : ℕ) * goldenAngle),
        300 + (250 + ((0 : ℕ) % 3 : ℕ) * 50) * Real.sin ((0 : ℕ) * goldenAngle)) :=
  (claim_C9_layout_positions [c9Endpoint] "api" "1.0" 0 ⟨[], []⟩ ""
    ⟨"", .api, 0, 0, .api "" "", false⟩ 0).2.1 (by decide)

end SpecView

namespace SpecView

/-! ## Claim C5 -/

/-- Claim-side: the endpoint produced for method `m` of `pathObj` — `some`
exactly when the method key is present (truthy) and the mapper succeeds. -/
def opEndpoint (path m : String) (pathObj : JS) : Option Endpoint :=
  if (pathObj.member m).truthy then (methodDataMapper path m (pathObj.member m)).toOption
  else none

/-- Claim-side: the warning diagnostic produced for method `m` of
`pathObj` — `some` exactly when the method key is present and the mapper
throws. -/
def opDiagnostic (path m : String) (pathObj : JS) : Option Diagnostic :=
  if (pathObj.member m).truthy then
    match methodDataMapper path m (pathObj.member m) with
    | .ok _ => none
    | .error msg => some ⟨some ("paths." ++ path ++ "." ++ m),
        extractionWarningMessage path m msg, .warning⟩
  else none

/-- A successful guarded property read equals the total one. -/
theorem memberE_ok {v : JS} {k : String} {w : JS} (h : v.memberE k = .ok w) :
    w = v.member k := by
  cases v <;> simp [JS.memberE] at h ⊢ <;> exact h.symm

/-- Characterization of the inner extraction loop. -/
theorem processMethods_ok (path : String) (pathObj : JS) (ms : List String)
    (es : List Endpoint) (ds : List Diagnostic)
    (h : processMethods path pathObj ms = .ok (es, ds)) :
    es = ms.filterMap (fun m => opEndpoint path m pathObj) ∧
    ds = ms.filterMap (fun m => opDiagnostic path m pathObj) := by
  induction ms generalizing es ds with
  | nil =>
    simp only [processMethods] at h
    obtain ⟨rfl, rfl⟩ := Prod.mk.injEq .. ▸ (Except.ok.injEq .. ▸ h :)
    exact ⟨rfl, rfl⟩
  | cons m ms ih =>
    simp only [processMethods] at h
    rcases hv : pathObj.memberE m with e | v <;> rw [hv] at h
    · exact absurd h (by simp)
    rw [exceptBind_ok] at h
    obtain rfl := memberE_ok hv
    by_cases ht : (pathObj.member m).truthy
    · rw [if_pos ht] at h
      rcases hmap : methodDataMapper path m (pathObj.member m) with msg | ep <;>
          rw [hmap] at h
      · rcases hrec : processMethods path pathObj ms with e' | p <;> rw [hrec] at h
        · exact absurd h (by simp)
        rcases p with ⟨es', ds'⟩
        obtain ⟨hes, hds⟩ := ih es' ds' hrec
        simp only [exceptBind_ok, Except.ok.injEq, Prod.mk.injEq] at h
        obtain ⟨rfl, rfl⟩ := h
        constructor
        · rw [List.filterMap_cons]
          simp [opEndpoint, ht, hmap, hes, Except.toOption]
        · rw [List.filterMap_cons]
          simp [opDiagnostic, ht, hmap, hds, Except.toOption]
      · rcases hrec : processMethods path pathObj ms with e' | p <;> rw [hrec] at h
        · exact absurd h (by simp)
        rcases p with ⟨es', ds'⟩
        obtain ⟨hes, hds⟩ := ih es' ds' hrec
        simp only [exceptBind_ok, Except.ok.injEq, Prod.mk.injEq] at h
        obtain ⟨rfl, rfl⟩ := h
        constructor
        · rw [List.filterMap_cons]
          simp [opEndpoint, ht, hmap, hes, Except.toOption]
        · rw [List.filterMap_cons]
          simp [opDiagnostic, ht, hmap, hds, Except.toOption]
    · rw [if_neg ht] at h
      obtain ⟨hes, hds⟩ := ih es ds h
      constructor
      · rw [List.filterMap_cons]
        simp [opEndpoint, ht, hes]
      · rw [List.filterMap_cons]
        simp [opDiagnostic, ht, hds]

end SpecView

namespace SpecView

/-- Characterization of the outer extraction loop. -/
theorem processPaths_ok (entries : List (String × JS))
    (es : List Endpoint) (ds : List Diagnostic)
    (h : processPaths entries = .ok (es, ds)) :
    es = entries.flatMap (fun e => httpMethods.filterMap (fun m => opEndpoint e.1 m e.2)) ∧
    ds = entries.flatMap (fun e => httpMethods.filterMap (fun m => opDiagnostic e.1 m e.2)) := by
  induction entries generalizing es ds with
  | nil =>
    simp only [processPaths] at h
    obtain ⟨rfl, rfl⟩ := Prod.mk.injEq .. ▸ (Except.ok.injEq .. ▸ h :)
    exact ⟨rfl, rfl⟩
  | cons e rest ih =>
    rcases e with ⟨path, pathObj⟩
    simp only [processPaths] at h
    rcases h₁ : processMethods path pathObj httpMethods with e₁ | p₁ <;> rw [h₁] at h
    · exact absurd h (by simp)
    rcases p₁ with ⟨es₁, ds₁⟩
    rcases h₂ : processPaths rest with e₂ | p₂ <;> rw [h₂] at h
    · exact absurd h (by simp)
    rcases p₂ with ⟨es₂, ds₂⟩
    simp only [exceptBind_ok, Except.ok.injEq, Prod.mk.injEq] at h
    obtain ⟨rfl, rfl⟩ := h
    obtain ⟨hes₁, hds₁⟩ := processMethods_ok path pathObj httpMethods es₁ ds₁ h₁
    obtain ⟨hes₂, hds₂⟩ := ih es₂ ds₂ h₂
    simp [List.flatMap_cons, hes₁, hds₁, hes₂, hds₂]

/-- Per-method-list counting: endpoints plus diagnostics account for
exactly the present method keys. -/
theorem ops_count (path : String) (pathObj : JS) (ms : List String) :
    (ms.filterMap (fun m => opEndpoint path m pathObj)).length +
      (ms.filterMap (fun m => opDiagnostic path m pathObj)).length =
      (ms.filterMap (fun m =>
        if (pathObj.member m).truthy then some (path, m, pathObj.member m) else none)).length := by
  induction ms with
  | nil => rfl
  | cons m ms ih =>
    simp only [List.filterMap_cons]
    by_cases ht : (pathObj.member m).truthy
    · rcases hmap : methodDataMapper path m (pathObj.member m) with msg | ep
      · have hE : opEndpoint path m pathObj = none := by
          simp [opEndpoint, ht, hmap, Except.toOption]
        have hD : opDiagnostic path m pathObj = some ⟨some ("paths." ++ path ++ "." ++ m),
            extractionWarningMessage path m msg, .warning⟩ := by
          simp [opDiagnostic, ht, hmap]
        simp only [hE, hD, if_pos ht, List.length_cons]
        omega
      · have hE : opEndpoint path m pathObj = some ep := by
          simp [opEndpoint, ht, hmap, Except.toOption]
        have hD : opDiagnostic path m pathObj = none := by
          simp [opDiagnostic, ht, hmap]
        simp only [hE, hD, if_pos ht, List.length_cons]
        omega
    · have hE : opEndpoint path m pathObj = none := by simp [opEndpoint, ht]
      have hD : opDiagnostic path m pathObj = none := by simp [opDiagnostic, ht]
      simp only [hE, hD, if_neg ht]
      omega

/-- Entry-level counting. -/
theorem paths_count (entries : List (String × JS)) :
    (entries.flatMap (fun e => httpMethods.filterMap (fun m => opEndpoint e.1 m e.2))).length +
      (entries.flatMap (fun e => httpMethods.filterMap (fun m => opDiagnostic e.1 m e.2))).length =
      (entries.flatMap (fun e => httpMethods.filterMap (fun m =>
        if (e.2.member m).truthy then some (e.1, m, e.2.member m) else none))).length := by
  induction entries with
  | nil => rfl
  | cons e rest ih =>
    simp only [List.flatMap_cons, List.length_append]
    have := ops_count e.1 e.2 httpMethods
    omega

/-- Claim C5 (corrected): on every run on which no presence test throws
(extraction returns `ok` — no nullish path value is reached), extraction
visits each path and each of the six method keys present (truthy) under
it, producing one endpoint per present method whose mapping succeeds and
one warning diagnostic with path `paths.<path>.<method>` per present
method whose mapping throws; endpoints plus diagnostics account for every
present method key, so with no diagnostics `endpoints.length` equals the
count of method keys across all paths.  The claim is NOT true of every
resolved document: a nullish path value makes `pathObj[method]` throw
OUTSIDE the per-operation `try`, the outer catch then discards all
previously extracted endpoints and emits no per-operation warning (see
the counterexample). -/
theorem claim_C5_extraction_isolated (api : JS) (eps : List Endpoint)
    (diags : List Diagnostic) (hok : extractEndpoints api = .ok (eps, diags)) :
    eps = (JS.entriesD (JS.lodashGet api "paths" (.jobj []))).flatMap
      (fun e => httpMethods.filterMap (fun m => opEndpoint e.1 m e.2)) ∧
    diags = (JS.entriesD (JS.lodashGet api "paths" (.jobj []))).flatMap
      (fun e => httpMethods.filterMap (fun m => opDiagnostic e.1 m e.2)) ∧
    eps.length + diags.length = countMethodKeys api ∧
    (∀ d ∈ diags, d.severity = .warning ∧
      ∃ p m pathObj, (p, pathObj) ∈ JS.entriesD (JS.lodashGet api "paths" (.jobj [])) ∧
        m ∈ httpMethods ∧ (pathObj.member m).truthy = true ∧
        d.path = some ("paths." ++ p ++ "." ++ m)) ∧
    (diags = [] → eps.length = countMethodKeys api) := by
  unfold extractEndpoints at hok
  simp only [] at hok
  rcases he : JS.entriesE (JS.lodashGet api "paths" (.jobj [])) with e | l <;> rw [he] at hok
  · exact absurd hok (by simp)
  rw [exceptBind_ok] at hok
  obtain rfl := entriesE_ok he
  obtain ⟨hes, hds⟩ := processPaths_ok _ eps diags hok
  have hcount : eps.length + diags.length = countMethodKeys api := by
    rw [hes, hds, countMethodKeys, presentOps]
    exact paths_count _
  refine ⟨hes, hds, hcount, ?_, ?_⟩
  · intro d hd
    rw [hds] at hd
    simp only [List.mem_flatMap, List.mem_filterMap] at hd
    obtain ⟨e, he', m, hm, hsome⟩ := hd
    unfold opDiagnostic at hsome
    by_cases ht : (e.2.member m).truthy
    · rw [if_pos ht] at hsome
      rcases hmap : methodDataMapper e.1 m (e.2.member m) with msg | ep <;>
        rw [hmap] at hsome
      · simp only [Option.some.injEq] at hsome
        subst hsome
        exact ⟨rfl, e.1, m, e.2, by simpa using he', hm, ht, rfl⟩
      · simp at hsome
    · rw [if_neg ht] at hsome
      simp at hsome
  · intro hnil
    rw [hnil] at hcount
    simpa using hcount

end SpecView

namespace SpecView

/-- A concrete resolved document with one succeeding operation and one
operation that throws in the mapper (`parameters: 5`). -/
def c5Api : JS :=
  .jobj [("paths", .jobj [("/a", .jobj [("get", .jobj []),
    ("post", .jobj [("parameters", .num 5)])])])]

/-- The extraction result for `c5Api`. -/
def c5Extracted : List Endpoint × List Diagnostic :=
  (extractEndpoints c5Api).toOption.getD ([], [])

/-- Witness for claim C5: the characterization theorem applied to `c5Api`
gives that extracted endpoints plus per-operation warnings account for
both present method keys. -/
theorem claim_C5_witness :
    c5Extracted.1.length + c5Extracted.2.length = countMethodKeys c5Api :=
  (claim_C5_extraction_isolated c5Api c5Extracted.1 c5Extracted.2 (by rfl)).2.2.1

end SpecView

namespace SpecView

/-! ## Claim C4 -/

/-- Claim-side, total version of the per-path operation check. -/
def pathObjHasOps (p : JS) : Bool :=
  (JS.keysD p).any (fun k => validatorMethods.contains (strLower k))

/-- Claim-side, total version of the `some` over path values. -/
def anyOpsPure (vs : List JS) : Bool :=
  vs.any pathObjHasOps

/-- A successful `Object.keys` equals the total keys function. -/
theorem keysE_ok {v : JS} {l : List String} (h : JS.keysE v = .ok l) :
    l = JS.keysD v := by
  cases v <;> simp [JS.keysE, JS.keysD] at h ⊢ <;> first | exact h | exact h.symm

/-- On a successful run the short-circuiting operation check computes the
pure `any`. -/
theorem anyPathHasOps_ok {vs : List JS} {b : Bool} (h : anyPathHasOps vs = .ok b) :
    anyOpsPure vs = b := by
  induction vs generalizing b with
  | nil =>
    simp only [anyPathHasOps, Except.ok.injEq] at h
    simp [anyOpsPure, ← h]
  | cons p rest ih =>
    simp only [anyPathHasOps] at h
    rcases hk : JS.keysE p with e | ks <;> rw [hk] at h
    · exact absurd h (by simp)
    rw [exceptBind_ok] at h
    obtain rfl := keysE_ok hk
    by_cases hops : (JS.keysD p).any (fun k => validatorMethods.contains (strLower k))
    · rw [if_pos hops] at h
      simp only [Except.ok.injEq] at h
      subst h
      simp only [anyOpsPure, List.any_cons, pathObjHasOps, hops, Bool.true_or]
    · rw [if_neg hops] at h
      have hrest := ih h
      have hops' : pathObjHasOps p = false := by
        simp only [pathObjHasOps]
        simpa using hops
      simp only [anyOpsPure, List.any_cons, hops', Bool.false_or]
      exact hrest

/-- Prefix survives two appended suffixes. -/
theorem strStartsWith_append₂ {p q : String} (x y : String)
    (h : strStartsWith p q = true) : strStartsWith p (q ++ x ++ y) = true :=
  strStartsWith_append_of _ (strStartsWith_append_of _ h)

/-- Non-prefix (of sufficient length) survives two appended suffixes. -/
theorem strStartsWith_append₂_false {p q : String} (x y : String)
    (hlen : p.data.length ≤ q.data.length)
    (h : strStartsWith p q = false) : strStartsWith p (q ++ x ++ y) = false := by
  apply strStartsWith_append_false
  · rw [String.data_append, List.length_append]
    omega
  · exact strStartsWith_append_false _ hlen h

end SpecView

namespace SpecView

/-- Every diagnostic of the version rule group is the missing-identifier
error or carries an `OpenAPI version`/`Swagger version` message prefix;
all have `path = none`. -/
theorem versionRule_members (spec : JS) :
    ∀ d ∈ versionRuleDiags spec, d.path = none ∧
      (d = ⟨none, "Invalid API spec format: Missing OpenAPI/Swagger version identifier",
          .error⟩ ∨
        strStartsWith "OpenAPI version" d.message = true ∨
        strStartsWith "Swagger version" d.message = true) := by
  intro d hd
  unfold versionRuleDiags at hd
  simp only [] at hd
  split_ifs at hd with h₁ h₂ h₃
  · simp only [List.mem_singleton] at hd
    subst hd
    exact ⟨rfl, Or.inl rfl⟩
  · simp only [List.mem_singleton] at hd
    subst hd
    exact ⟨rfl, Or.inr (Or.inl (strStartsWith_append₂ _ _ (by decide)))⟩
  · simp only [List.mem_singleton] at hd
    subst hd
    exact ⟨rfl, Or.inr (Or.inr (strStartsWith_append₂ _ _ (by decide)))⟩
  · simp at hd

/-- Membership of the missing-identifier error in the version rule
group. -/
theorem versionRule_missing (spec : JS) :
    ((⟨none, "Invalid API spec format: Missing OpenAPI/Swagger version identifier",
        .error⟩ : Diagnostic) ∈ versionRuleDiags spec) ↔
      ((spec.member "openapi").truthy = false ∧ (spec.member "swagger").truthy = false) := by
  constructor
  · intro hd
    unfold versionRuleDiags at hd
    simp only [] at hd
    split_ifs at hd with h₁ h₂ h₃
    · simpa [Bool.and_eq_true, Bool.not_eq_true'] using h₁
    · simp only [List.mem_singleton, Diagnostic.mk.injEq] at hd
      exact absurd hd.2.2 (by decide)
    · simp only [List.mem_singleton, Diagnostic.mk.injEq] at hd
      exact absurd hd.2.2 (by decide)
    · simp at hd
  · rintro ⟨ho, hs⟩
    unfold versionRuleDiags
    simp only []
    rw [if_pos (by simp [ho, hs])]
    simp

end SpecView

namespace SpecView

/-- Membership of an `OpenAPI version` warning in the version rule
group. -/
theorem versionRule_openapi (spec : JS) :
    (∃ d ∈ versionRuleDiags spec, strStartsWith "OpenAPI version" d.message = true) ↔
      ((spec.member "openapi").truthy = true ∧
        versionSupported (JS.jsOr (spec.member "openapi") (spec.member "swagger")) = false) := by
  constructor
  · rintro ⟨d, hd, hP⟩
    unfold versionRuleDiags at hd
    simp only [] at hd
    split_ifs at hd with h₁ h₂ h₃
    · simp only [List.mem_singleton] at hd
      subst hd
      exact absurd hP (by decide)
    · simpa [Bool.and_eq_true, Bool.not_eq_true'] using h₂
    · simp only [List.mem_singleton] at hd
      subst hd
      rw [strStartsWith_append₂_false _ _ (by decide) (by decide)] at hP
      exact Bool.noConfusion hP
    · simp at hd
  · rintro ⟨ho, hsup⟩
    refine ⟨⟨none, "OpenAPI version " ++
        jsToStr (JS.jsOr (spec.member "openapi") (spec.member "swagger")) ++
        " may not be fully supported. Recommended versions: 3.0.x or 3.1.0", .warning⟩,
      ?_, strStartsWith_append₂ _ _ (by decide)⟩
    unfold versionRuleDiags
    simp only []
    rw [if_neg (by simp [ho]), if_pos (by simp [ho, hsup])]
    simp

/-- Membership of a `Swagger version` warning in the version rule group:
it requires a truthy `swagger`, that the OpenAPI warning did NOT fire, and
that the shared `version` value (openapi if truthy, else swagger) differs
from `"2.0"`. -/
theorem versionRule_swagger (spec : JS) :
    (∃ d ∈ versionRuleDiags spec, strStartsWith "Swagger version" d.message = true) ↔
      ((spec.member "swagger").truthy = true ∧
        ¬((spec.member "openapi").truthy = true ∧
          versionSupported (JS.jsOr (spec.member "openapi") (spec.member "swagger")) = false) ∧
        jsNeqStr (JS.jsOr (spec.member "openapi") (spec.member "swagger")) "2.0" = true) := by
  constructor
  · rintro ⟨d, hd, hP⟩
    unfold versionRuleDiags at hd
    simp only [] at hd
    split_ifs at hd with h₁ h₂ h₃
    · simp only [List.mem_singleton] at hd
      subst hd
      exact absurd hP (by decide)
    · simp only [List.mem_singleton] at hd
      subst hd
      rw [strStartsWith_append₂_false _ _ (by decide) (by decide)] at hP
      exact Bool.noConfusion hP
    · rw [Bool.and_eq_true] at h₃
      refine ⟨h₃.1, ?_, h₃.2⟩
      intro hc
      exact h₂ (by simp [Bool.and_eq_true, Bool.not_eq_true', hc.1, hc.2])
    · simp at hd
  · rintro ⟨hs, hno, hneq⟩
    refine ⟨⟨none, "Swagger version " ++
        jsToStr (JS.jsOr (spec.member "openapi") (spec.member "swagger")) ++
        " may not be fully supported. Recommended version: 2.0", .warning⟩,
      ?_, strStartsWith_append₂ _ _ (by decide)⟩
    unfold versionRuleDiags
    simp only []
    rw [if_neg (by simp [hs]), if_neg ?_, if_pos (by simp [hs, hneq])]
    · simp
    · intro hc
      exact hno (by simpa [Bool.and_eq_true, Bool.not_eq_true'] using hc)

end SpecView

namespace SpecView

/-- The info rule group only ever contains the three literal info
diagnostics. -/
theorem infoRule_members (spec : JS) :
    ∀ d ∈ infoRuleDiags spec,
      d = ⟨none, "Missing required \"info\" object in specification", .error⟩ ∨
      d = ⟨some "info.title", "API specification is missing required title", .error⟩ ∨
      d = ⟨some "info.version", "API specification is missing version information", .error⟩ := by
  intro d hd
  unfold infoRuleDiags at hd
  split_ifs at hd <;> simp_all

/-- Membership of the missing-`info` error. -/
theorem infoRule_missing (spec : JS) :
    ((⟨none, "Missing required \"info\" object in specification", .error⟩ : Diagnostic) ∈
        infoRuleDiags spec) ↔ (spec.member "info").truthy = false := by
  unfold infoRuleDiags
  split_ifs with h₁ <;> simp_all [Bool.not_eq_true']

/-- Membership of the `info.title` error. -/
theorem infoRule_title (spec : JS) :
    (∃ d ∈ infoRuleDiags spec, d.path = some "info.title") ↔
      ((spec.member "info").truthy = true ∧
        ((spec.member "info").member "title").truthy = false) := by
  unfold infoRuleDiags
  split_ifs with h₁ h₂ h₃ <;>
    simp_all [Bool.not_eq_true']

/-- Membership of the `info.version` error. -/
theorem infoRule_version (spec : JS) :
    (∃ d ∈ infoRuleDiags spec, d.path = some "info.version") ↔
      ((spec.member "info").truthy = true ∧
        ((spec.member "info").member "version").truthy = false) := by
  unfold infoRuleDiags
  split_ifs with h₁ h₂ h₃ <;>
    simp_all [Bool.not_eq_true']

end SpecView

namespace SpecView

/-- Characterization of the paths rule group on a successful run. -/
theorem pathsRule_ok (spec : JS) (tail : List Diagnostic)
    (h : pathsRuleDiags spec = .ok tail) :
    ((⟨none, "API specification contains no endpoints (empty paths object)",
        .warning⟩ : Diagnostic) ∈ tail ↔
      ((spec.member "paths").truthy = false ∨ JS.keysD (spec.member "paths") = [])) ∧
    ((∃ d ∈ tail, d.path = some "paths") ↔
      ((spec.member "paths").truthy = true ∧ JS.keysD (spec.member "paths") ≠ [] ∧
        anyOpsPure (valuesD (spec.member "paths")) = false)) ∧
    (∀ d ∈ tail,
      d = ⟨none, "API specification contains no endpoints (empty paths object)", .warning⟩ ∨
      d = ⟨some "paths",
        "API specification contains paths but no HTTP operations (GET, POST, etc.)",
        .warning⟩) := by
  unfold pathsRuleDiags at h
  simp only [] at h
  split_ifs at h with hcond
  · simp only [Except.ok.injEq] at h
    subst h
    rw [Bool.or_eq_true, Bool.not_eq_true', decide_eq_true_eq] at hcond
    refine ⟨by simpa using hcond, ?_, by simp⟩
    constructor
    · rintro ⟨d, hd, hp⟩
      simp only [List.mem_singleton] at hd
      subst hd
      simp at hp
    · rintro ⟨ht, hk, -⟩
      rcases hcond with hc | hc
      · rw [ht] at hc
        exact Bool.noConfusion hc
      · exact absurd hc hk
  · rcases hops : anyPathHasOps (valuesD (spec.member "paths")) with e | b <;> rw [hops] at h
    · exact absurd h (by simp)
    rw [exceptBind_ok, Except.ok.injEq] at h
    subst h
    have hb := anyPathHasOps_ok hops
    rw [Bool.or_eq_true, Bool.not_eq_true', decide_eq_true_eq] at hcond
    push_neg at hcond
    obtain ⟨ht, hk⟩ := hcond
    have ht' : (spec.member "paths").truthy = true := by simpa using ht
    cases b with
    | false =>
      refine ⟨?_, ?_, by simp⟩
      · simp [ht', hk, Diagnostic.mk.injEq]
      · simp [ht', hk, hb]
    | true =>
      refine ⟨?_, ?_, by simp⟩
      · simp [ht', hk]
      · simp [hb]

end SpecView

namespace SpecView

theorem mem_append₂_left {α : Type} {a : α} {A B C : List α}
    (hB : a ∉ B) (hC : a ∉ C) : a ∈ A ++ B ++ C ↔ a ∈ A := by
  simp only [List.mem_append]
  tauto

theorem mem_append₂_mid {α : Type} {a : α} {A B C : List α}
    (hA : a ∉ A) (hC : a ∉ C) : a ∈ A ++ B ++ C ↔ a ∈ B := by
  simp only [List.mem_append]
  tauto

theorem mem_append₂_right {α : Type} {a : α} {A B C : List α}
    (hA : a ∉ A) (hB : a ∉ B) : a ∈ A ++ B ++ C ↔ a ∈ C := by
  simp only [List.mem_append]
  tauto

theorem exists_append₂_left {α : Type} {P : α → Prop} {A B C : List α}
    (hB : ∀ b ∈ B, ¬P b) (hC : ∀ c ∈ C, ¬P c) :
    (∃ d ∈ A ++ B ++ C, P d) ↔ ∃ d ∈ A, P d := by
  simp only [List.mem_append]
  constructor
  · rintro ⟨d, (hd | hd) | hd, hP⟩
    · exact ⟨d, hd, hP⟩
    · exact absurd hP (hB d hd)
    · exact absurd hP (hC d hd)
  · rintro ⟨d, hd, hP⟩
    exact ⟨d, Or.inl (Or.inl hd), hP⟩

theorem exists_append₂_mid {α : Type} {P : α → Prop} {A B C : List α}
    (hA : ∀ b ∈ A, ¬P b) (hC : ∀ c ∈ C, ¬P c) :
    (∃ d ∈ A ++ B ++ C, P d) ↔ ∃ d ∈ B, P d := by
  simp only [List.mem_append]
  constructor
  · rintro ⟨d, (hd | hd) | hd, hP⟩
    · exact absurd hP (hA d hd)
    · exact ⟨d, hd, hP⟩
    · exact absurd hP (hC d hd)
  · rintro ⟨d, hd, hP⟩
    exact ⟨d, Or.inl (Or.inr hd), hP⟩

theorem exists_append₂_right {α : Type} {P : α → Prop} {A B C : List α}
    (hA : ∀ b ∈ A, ¬P b) (hB : ∀ c ∈ B, ¬P c) :
    (∃ d ∈ A ++ B ++ C, P d) ↔ ∃ d ∈ C, P d := by
  simp only [List.mem_append]
  constructor
  · rintro ⟨d, (hd | hd) | hd, hP⟩
    · exact absurd hP (hA d hd)
    · exact absurd hP (hB d hd)
    · exact ⟨d, hd, hP⟩
  · rintro ⟨d, hd, hP⟩
    exact ⟨d, Or.inr hd, hP⟩

end SpecView

namespace SpecView

/-- Claim C4 (corrected): on every input on which the operation check does
not throw, the validator's diagnostics are governed by the fixed rules:
falsy document → the single empty-spec error; neither `openapi` nor
`swagger` truthy → the missing-identifier error; `openapi` truthy with an
unsupported value → the `OpenAPI version` warning; the `Swagger version`
warning fires iff `swagger` is truthy, the OpenAPI warning did NOT fire,
and the shared `version` value (`openapi || swagger`) differs from
`"2.0"` — NOT simply iff `swagger ≠ "2.0"` as claimed (see the
counterexample); `info` missing → error; `info` present without
title/version → errors with paths `info.title`/`info.version` (and no
`info.title` diagnostic when `info` itself is missing); `paths` missing or
empty → warning; `paths` non-empty with no recognized method key →
warning with path `paths`.  The validator can also throw — contrary to
the claim's no-throw clause — when `paths` holds a nullish value reached
by the operation check. -/
theorem claim_C4_validator_rules (spec : JS) (ds : List Diagnostic)
    (hok : validateSpecFormat spec = .ok ds) :
    (spec.truthy = false →
      ds = [⟨none, "Specification is empty or undefined", .error⟩]) ∧
    (spec.truthy = true →
      (((⟨none, "Invalid API spec format: Missing OpenAPI/Swagger version identifier",
          .error⟩ : Diagnostic) ∈ ds) ↔
        ((spec.member "openapi").truthy = false ∧ (spec.member "swagger").truthy = false)) ∧
      ((∃ d ∈ ds, strStartsWith "OpenAPI version" d.message = true) ↔
        ((spec.member "openapi").truthy = true ∧
          versionSupported (JS.jsOr (spec.member "openapi") (spec.member "swagger")) = false)) ∧
      ((∃ d ∈ ds, strStartsWith "Swagger version" d.message = true) ↔
        ((spec.member "swagger").truthy = true ∧
          ¬((spec.member "openapi").truthy = true ∧
            versionSupported (JS.jsOr (spec.member "openapi") (spec.member "swagger")) = false) ∧
          jsNeqStr (JS.jsOr (spec.member "openapi") (spec.member "swagger")) "2.0" = true)) ∧
      (((⟨none, "Missing required \"info\" object in specification", .error⟩ : Diagnostic) ∈ ds) ↔
        (spec.member "info").truthy = false) ∧
      ((∃ d ∈ ds, d.path = some "info.title") ↔
        ((spec.member "info").truthy = true ∧
          ((spec.member "info").member "title").truthy = false)) ∧
      ((∃ d ∈ ds, d.path = some "info.version") ↔
        ((spec.member "info").truthy = true ∧
          ((spec.member "info").member "version").truthy = false)) ∧
      (((⟨none, "API specification contains no endpoints (empty paths object)",
          .warning⟩ : Diagnostic) ∈ ds) ↔
        ((spec.member "paths").truthy = false ∨ JS.keysD (spec.member "paths") = [])) ∧
      ((∃ d ∈ ds, d.path = some "paths") ↔
        ((spec.member "paths").truthy = true ∧ JS.keysD (spec.member "paths") ≠ [] ∧
          anyOpsPure (valuesD (spec.member "paths")) = false))) := by
  constructor
  · intro hf
    unfold validateSpecFormat at hok
    simp only [hf, Bool.not_false, if_true, Except.ok.injEq] at hok
    exact hok.symm
  · intro ht
    unfold validateSpecFormat at hok
    simp only [ht, Bool.not_true, Bool.false_eq_true, if_false] at hok
    rcases hp : pathsRuleDiags spec with e | tail <;> rw [hp] at hok
    · exact absurd hok (by simp)
    rw [exceptBind_ok, Except.ok.injEq] at hok
    subst hok
    obtain ⟨hPempty, hPops, hPmem⟩ := pathsRule_ok spec tail hp
    have hvd := versionRule_members spec
    have hid := infoRule_members spec
    have d1NotInId :
        (⟨none, "Invalid API spec format: Missing OpenAPI/Swagger version identifier",
          .error⟩ : Diagnostic) ∉ infoRuleDiags spec := fun h => by
      rcases hid _ h with h' | h' | h' <;> exact absurd h' (by decide)
    have d1NotInTail :
        (⟨none, "Invalid API spec format: Missing OpenAPI/Swagger version identifier",
          .error⟩ : Diagnostic) ∉ tail := fun h => by
      rcases hPmem _ h with h' | h' <;> exact absurd h' (by decide)
    have noOPrefixInId : ∀ d ∈ infoRuleDiags spec,
        ¬(strStartsWith "OpenAPI version" d.message = true) := fun d hd h => by
      rcases hid d hd with rfl | rfl | rfl <;> exact absurd h (by decide)
    have noOPrefixInTail : ∀ d ∈ tail,
        ¬(strStartsWith "OpenAPI version" d.message = true) := fun d hd h => by
      rcases hPmem d hd with rfl | rfl <;> exact absurd h (by decide)
    have noSPrefixInId : ∀ d ∈ infoRuleDiags spec,
        ¬(strStartsWith "Swagger version" d.message = true) := fun d hd h => by
      rcases hid d hd with rfl | rfl | rfl <;> exact absurd h (by decide)
    have noSPrefixInTail : ∀ d ∈ tail,
        ¬(strStartsWith "Swagger version" d.message = true) := fun d hd h => by
      rcases hPmem d hd with rfl | rfl <;> exact absurd h (by decide)
    have miNotInVd :
        (⟨none, "Missing required \"info\" object in specification", .error⟩ : Diagnostic) ∉
          versionRuleDiags spec := fun h => by
      rcases (hvd _ h).2 with h' | h' | h' <;> exact absurd h' (by decide)
    have miNotInTail :
        (⟨none, "Missing required \"info\" object in specification", .error⟩ : Diagnostic) ∉
          tail := fun h => by
      rcases hPmem _ h with h' | h' <;> exact absurd h' (by decide)
    have noTitleInVd : ∀ d ∈ versionRuleDiags spec,
        ¬(d.path = some "info.title") := fun d hd h => by
      rw [(hvd d hd).1] at h
      exact Option.noConfusion h
    have noTitleInTail : ∀ d ∈ tail, ¬(d.path = some "info.title") := fun d hd h => by
      rcases hPmem d hd with rfl | rfl <;> simp at h
    have noVersInVd : ∀ d ∈ versionRuleDiags spec,
        ¬(d.path = some "info.version") := fun d hd h => by
      rw [(hvd d hd).1] at h
      exact Option.noConfusion h
    have noVersInTail : ∀ d ∈ tail, ¬(d.path = some "info.version") := fun d hd h => by
      rcases hPmem d hd with rfl | rfl <;> simp at h
    have epNotInVd :
        (⟨none, "API specification contains no endpoints (empty paths object)",
          .warning⟩ : Diagnostic) ∉ versionRuleDiags spec := fun h => by
      rcases (hvd _ h).2 with h' | h' | h' <;> exact absurd h' (by decide)
    have epNotInId :
        (⟨none, "API specification contains no endpoints (empty paths object)",
          .warning⟩ : Diagnostic) ∉ infoRuleDiags spec := fun h => by
      rcases hid _ h with h' | h' | h' <;> exact absurd h' (by decide)
    have noPathsInVd : ∀ d ∈ versionRuleDiags spec,
        ¬(d.path = some "paths") := fun d hd h => by
      rw [(hvd d hd).1] at h
      exact Option.noConfusion h
    have noPathsInId : ∀ d ∈ infoRuleDiags spec,
        ¬(d.path = some "paths") := fun d hd h => by
      rcases hid d hd with rfl | rfl | rfl <;> simp at h
    exact ⟨(mem_append₂_left d1NotInId d1NotInTail).trans (versionRule_missing spec),
      (exists_append₂_left noOPrefixInId noOPrefixInTail).trans (versionRule_openapi spec),
      (exists_append₂_left noSPrefixInId noSPrefixInTail).trans (versionRule_swagger spec),
      (mem_append₂_mid miNotInVd miNotInTail).trans (infoRule_missing spec),
      (exists_append₂_mid noTitleInVd noTitleInTail).trans (infoRule_title spec),
      (exists_append₂_mid noVersInVd noVersInTail).trans (infoRule_version spec),
      (mem_append₂_right epNotInVd epNotInId).trans hPempty,
      (exists_append₂_right noPathsInVd noPathsInId).trans hPops⟩

end SpecView

namespace SpecView

/-- A document with an unsupported `openapi` and a non-`2.0` `swagger`. -/
def c4CexSpec : JS :=
  .jobj [("openapi", .str "2.9"), ("swagger", .str "9.9"),
    ("info", .jobj [("title", .str "t"), ("version", .str "1")]),
    ("paths", .jobj [("/a", .jobj [("get", .jobj [])])])]

/-- Counterexample for claim C4 as stated: here `swagger` is present and
differs from `"2.0"`, so the claimed rule table demands a Swagger-version
warning, but the validator emits exactly one diagnostic (the OpenAPI
warning) and no Swagger-version warning at all — the swagger check sits
in an `else if` behind the OpenAPI check. -/
theorem claim_C4_counterexample :
    (c4CexSpec.member "swagger").truthy = true ∧
    jsNeqStr (c4CexSpec.member "swagger") "2.0" = true ∧
    (validateSpecFormat c4CexSpec).map
      (fun ds => ds.map (fun d => strStartsWith "Swagger version" d.message)) =
      .ok [false] := by
  decide

/-- A document triggering the swagger warning plus info/paths rules. -/
def c4WitnessSpec : JS := .jobj [("swagger", .str "3.0")]

/-- The validator output for the witness document. -/
def c4WitnessDs : List Diagnostic :=
  (validateSpecFormat c4WitnessSpec).toOption.getD []

/-- Witness for claim C4: the rule-table theorem applied to a concrete
document, projected at the corrected swagger-warning rule. -/
theorem claim_C4_witness :
    (∃ d ∈ c4WitnessDs, strStartsWith "Swagger version" d.message = true) ↔
      ((c4WitnessSpec.member "swagger").truthy = true ∧
        ¬((c4WitnessSpec.member "openapi").truthy = true ∧
          versionSupported (JS.jsOr (c4WitnessSpec.member "openapi")
            (c4WitnessSpec.member "swagger")) = false) ∧
        jsNeqStr (JS.jsOr (c4WitnessSpec.member "openapi")
          (c4WitnessSpec.member "swagger")) "2.0" = true) :=
  ((claim_C4_validator_rules c4WitnessSpec c4WitnessDs (by rfl)).2 (by decide)).2.2.1

end SpecView

namespace SpecView

/-- The endpoints state after the extraction region of `useSpecParser`:
when anything escapes the per-operation `try`, the `swaggerError` catch
runs `setEndpoints([])`, discarding every previously extracted
endpoint. -/
def endpointsAfterExtraction (api : JS) : List Endpoint :=
  match extractEndpoints api with
  | .ok p => p.1
  | .error _ => []

/-- A resolved document whose first path holds one well-formed operation
and whose second path value is `null`. -/
def c5CexApi : JS :=
  .jobj [("paths", .jobj [("/a", .jobj [("get", .jobj [])]), ("/b", .null)])]

/-- Counterexample for claim C5 as stated: on `c5CexApi` exactly one
method key is present and its mapper does NOT throw, yet extraction does
not produce that endpoint — the presence test `pathObj[method]` on the
`null` value of `/b` throws outside the per-operation `try`, extraction
aborts wholesale (so no `paths.<path>.<method>` warning is appended
either), and the catch leaves the endpoints state empty: the previously
extracted endpoint for `GET /a` is not retained and
`endpoints.length ≠ countMethodKeys`. -/
theorem claim_C5_counterexample :
    countMethodKeys c5CexApi = 1 ∧
    (methodDataMapper "/a" "get"
      (((JS.lodashGet c5CexApi "paths" (.jobj [])).member "/a").member "get")).isOk = true ∧
    (extractEndpoints c5CexApi).isOk = false ∧
    endpointsAfterExtraction c5CexApi = [] ∧
    (endpointsAfterExtraction c5CexApi).length ≠ countMethodKeys c5CexApi := by
  decide

end SpecView
